import Mathlib

/-
  Verification of the funserver HTTP/1.1 decoder, codec, driver and framer.

  Shallow embedding conventions:
  * a byte is modelled as a Char (one Char per byte; the inputs exercised
    are ASCII, and String::from_utf8_lossy is modelled as the identity);
  * byte strings and Rust Strings are both List Char;
  * fallible code returns the Res type below; Rust panics (slice out of
    bounds, usize underflow, unwrap/expect on None) are the constructor
    Res.panicked.
  Definition names follow src/src/server/http.rs, src/src/server.rs,
  src/src/server/post.rs and src/src/main.rs, except that names the
  checker refuses keep a nearby name with the source name in a comment.
-/

namespace Srv

/-- Result of embedded Rust code: success, a typed error, or a panic. -/
inductive Res (ε : Type) (α : Type) where
  | ok (a : α)
  | err (e : ε)
  | panicked
deriving DecidableEq, Repr

/-- Sequencing for Res, mirroring the ? operator and panic unwinding. -/
def pbind {ε α β : Type} (x : Res ε α) (f : α → Res ε β) : Res ε β :=
  match x with
  | .ok a => f a
  | .err e => .err e
  | .panicked => .panicked

/-- RequestError from src/src/server/http.rs lines 47 to 61. -/
inductive RequestError where
  | HeaderMissing
  | RequestTypeMissing
  | UnknownRequestType (s : List Char)
  | BodyMissing
  | VersionMissing
  | MalformedVersion
  | InvalidMajor
  | UnsupportedMajor
  | InvalidMinor
  | FieldError (s : List Char)
  | MultipartNoBoundary
deriving DecidableEq, Repr

/-- RequestType from http.rs lines 63 to 68. -/
inductive RequestType where
  | Post
  | Get
deriving DecidableEq, Repr

/-- RequestHeader from http.rs lines 70 to 77. -/
structure RequestHeader where
  request : RequestType
  body : List Char
  version_major : Nat
  version_minor : Nat
deriving DecidableEq, Repr

/-- RequestFieldSimple from http.rs lines 79 to 84. -/
structure RequestFieldSimple where
  name : List Char
  body : List Char
deriving DecidableEq, Repr

/-- RequestField from http.rs lines 86 to 91. -/
structure RequestField where
  this : RequestFieldSimple
  children : List RequestFieldSimple
deriving DecidableEq, Repr

/-- DataPart from http.rs lines 123 to 128. -/
structure DataPart where
  fields : List RequestField
  data : List Char
deriving DecidableEq, Repr

/-- RequestState from http.rs lines 93 to 100. -/
structure RequestState where
  boundary : Option (List Char)
  is_data_part : Bool
  is_data_part_header : Bool
  data : List DataPart
deriving DecidableEq, Repr

/-- RequestState::default from http.rs lines 110 to 121. -/
def defaultState : RequestState := ⟨none, false, false, []⟩

/-- Request from http.rs lines 141 to 147. -/
structure Request where
  header : RequestHeader
  fields : List RequestField
  data : List DataPart
deriving DecidableEq, Repr

/-- Output of one decoder call; source PartialRequest (http.rs lines 289
to 293), whose field is_partial is named needsMore here. -/
structure ParseOut where
  needsMore : Bool
  request : Request
deriving DecidableEq, Repr

/-- Whitespace test used by str::trim, restricted to the ASCII whitespace
the server ever sees. -/
def isWsp (c : Char) : Bool :=
  c = ' ' || c = '\t' || c = '\r' || c = '\n'

/-- Model of str::trim. -/
def trim (l : List Char) : List Char :=
  ((l.dropWhile isWsp).reverse.dropWhile isWsp).reverse

/-- Model of str::split(sep): always yields at least one segment. -/
def splitChar (sep : Char) : List Char → List (List Char)
  | [] => [[]]
  | a :: as =>
    let r := splitChar sep as
    if a = sep then [] :: r
    else
      match r with
      | [] => [[a]]
      | h :: t => (a :: h) :: t

/-- Model of slice::split_inclusive on the newline byte: each line keeps
its terminating newline; the empty input yields no lines. -/
def linesOf : List Char → List (List Char)
  | [] => []
  | a :: as =>
    let r := linesOf as
    if a = '\n' then [a] :: r
    else
      match r with
      | [] => [[a]]
      | h :: t => (a :: h) :: t

/-- Model of str::strip_suffix for the two byte suffix CR LF, as used at
http.rs line 279 and line 338. -/
def stripCRLF (l : List Char) : List Char :=
  if 2 ≤ l.length ∧ l.drop (l.length - 2) = ['\r', '\n'] then l.take (l.length - 2) else l

/-- Model of char::to_digit(10). -/
def to_digit10 (c : Char) : Option Nat :=
  if '0' ≤ c ∧ c ≤ '9' then some (c.toNat - 48) else none

/-- Request::parse_arg from http.rs lines 151 to 170. Splits on the first
colon, else the first equals sign; trims the value; strips outer double
quotes (the slice body[1..len-1] panics when the value is the single
quote character). -/
def parse_arg (text : List Char) : Res RequestError RequestFieldSimple :=
  match (match text.findIdx? (fun c => c = ':') with
    | some i => some i
    | none => text.findIdx? (fun c => c = '=')) with
  | none => .err (.FieldError text)
  | some i =>
    if (trim (text.drop (i + 1))).head? = some '"' ∧
        (trim (text.drop (i + 1))).getLast? = some '"' then
      if 2 ≤ (trim (text.drop (i + 1))).length then
        .ok ⟨text.take i, ((trim (text.drop (i + 1))).drop 1).dropLast⟩
      else .panicked
    else .ok ⟨text.take i, trim (text.drop (i + 1))⟩

/-- Error propagating map over parse_arg, as in the collect at http.rs
line 195. -/
def argsM : List (List Char) → Res RequestError (List RequestFieldSimple)
  | [] => .ok []
  | x :: xs =>
    pbind (parse_arg x) fun f =>
    pbind (argsM xs) fun fs => .ok (f :: fs)

/-- The semicolon splitting of Request::parse_normal (http.rs lines 182
to 196): except for User-Agent the value is split on semicolons into a
primary value and child attributes parsed by parse_arg. -/
def parse_field_split (name body0 : List Char) :
    Res RequestError (List Char × List RequestFieldSimple) :=
  if name = "User-Agent".toList then .ok (body0, [])
  else
    match (splitChar ';' body0).map trim with
    | [] => .panicked
    | b :: rest => pbind (argsM rest) fun children => .ok (b, children)

/-- Request::parse_normal from http.rs lines 172 to 210. Parses one field
line; a Content-Type field whose primary value starts with multipart
stores its first child attribute value as the boundary (overwriting any
previous boundary). -/
def parse_normal (st : RequestState) (line : List Char) :
    Res RequestError (RequestState × RequestField) :=
  pbind (parse_arg line) fun simple =>
  pbind (parse_field_split simple.name simple.body) fun bc =>
  if simple.name = "Content-Type".toList ∧ bc.1.take 9 = "multipart".toList then
    match bc.2.head? with
    | none => .err .MultipartNoBoundary
    | some inner =>
      .ok (⟨some inner.body, st.is_data_part, st.is_data_part_header, st.data⟩,
        ⟨⟨simple.name, bc.1⟩, bc.2⟩)
  else .ok (st, ⟨⟨simple.name, bc.1⟩, bc.2⟩)

/-- Continuation of Request::parse_single past the boundary test, http.rs
lines 253 to 286: inside a part either the mini header or the payload is
extended (RequestState::last_data unwraps, panicking on an empty part
list); outside a part the line is stripped of CR LF and parsed as a top
level field. -/
def parse_single_tail (st : RequestState) (line : List Char) :
    Res RequestError (RequestState × Option RequestField) :=
  if st.is_data_part then
    if st.is_data_part_header then
      if line = ['\r', '\n'] then
        .ok (⟨st.boundary, st.is_data_part, false, st.data⟩, none)
      else
        pbind (parse_normal st line) fun sf =>
        match sf.1.data.getLast? with
        | none => .panicked
        | some p =>
          .ok (⟨sf.1.boundary, sf.1.is_data_part, sf.1.is_data_part_header,
            sf.1.data.dropLast ++ [⟨p.fields ++ [sf.2], p.data⟩]⟩, none)
    else
      match st.data.getLast? with
      | none => .panicked
      | some p =>
        .ok (⟨st.boundary, st.is_data_part, st.is_data_part_header,
          st.data.dropLast ++ [⟨p.fields, p.data ++ line⟩]⟩, none)
  else
    let l2 := stripCRLF line
    if l2 = [] then .ok (st, none)
    else pbind (parse_normal st l2) fun sf => .ok (sf.1, some sf.2)

/-- The closing boundary test at http.rs lines 226 to 228: is_end is
true when the two bytes after the boundary are two dashes; the slice
line_end[..2] panics when exactly one byte follows. -/
def boundary_line_end (le : List Char) : Res RequestError Bool :=
  if le = [] then .ok false
  else if le.length < 2 then .panicked
  else .ok (le.take 2 = ['-', '-'])

/-- The payload trim at http.rs lines 230 to 238: when a part is open,
drop a trailing CR LF from the last part's payload; the slice
last_data[len-2..] panics when that payload is shorter than two bytes. -/
def trim_last_part (l : List DataPart) : Res RequestError (List DataPart) :=
  match l.getLast? with
  | none => .ok l
  | some p =>
    if p.data.length < 2 then .panicked
    else if p.data.drop (p.data.length - 2) = ['\r', '\n'] then
      .ok (l.dropLast ++ [⟨p.fields, p.data.take (p.data.length - 2)⟩])
    else .ok (l.dropLast ++ [p])

/-- Request::parse_single from http.rs lines 212 to 287. A line starting
with two dashes is matched against the boundary (the slice
line[..boundary.len()] panics when the line is shorter); a matching line
trims the previous part and opens a new part unless it is the closing
boundary. -/
def parse_single (st : RequestState) (line : List Char) :
    Res RequestError (RequestState × Option RequestField) :=
  if line.take 2 = ['-', '-'] then
    match st.boundary with
    | some b =>
      if (line.drop 2).length < b.length then .panicked
      else if (line.drop 2).take b.length = b then
        pbind (boundary_line_end ((line.drop 2).drop b.length)) fun isEnd =>
        pbind (trim_last_part st.data) fun d1 =>
        .ok (⟨st.boundary, !isEnd,
          if isEnd then st.is_data_part_header else true,
          if isEnd then d1 else d1 ++ [⟨[], []⟩]⟩, none)
      else parse_single_tail st line
    | none => parse_single_tail st line
  else parse_single_tail st line

/-- The filter_map plus collect over lines at http.rs lines 312 to 315:
feed each line to parse_single, stopping at the first error or panic and
keeping emitted fields in order. -/
def processLines (st : RequestState) : List (List Char) → Res RequestError (RequestState × List RequestField)
  | [] => .ok (st, [])
  | l :: ls =>
    pbind (parse_single st l) fun so =>
    pbind (processLines so.1 ls) fun q =>
    .ok (q.1,
      match so.2 with
      | none => q.2
      | some f => f :: q.2)

/-- The method token match of PartialRequest::parse_non_partial (http.rs
lines 342 to 347). -/
def parse_method (t0 : List Char) : Res RequestError RequestType :=
  if t0 = "GET".toList then .ok .Get
  else if t0 = "POST".toList then .ok .Post
  else .err (.UnknownRequestType t0)

/-- The version token checks of PartialRequest::parse_non_partial
(http.rs lines 351 to 366): exactly eight bytes starting HTTP slash, a
major digit equal to one, and a minor digit two bytes further. -/
def parse_version (version : List Char) : Res RequestError (Nat × Nat) :=
  if version.length ≠ 8 ∨ version.take 5 ≠ "HTTP/".toList then
    .err .MalformedVersion
  else
    match (version.drop 5).head? with
    | none => .panicked
    | some mc =>
      match to_digit10 mc with
      | none => .err .InvalidMajor
      | some mj =>
        if mj ≠ 1 then .err .UnsupportedMajor
        else
          match ((version.drop 5).drop 2).head? with
          | none => .panicked
          | some nc =>
            match to_digit10 nc with
            | none => .err .InvalidMinor
            | some mn => .ok (mj, mn)

/-- The token level half of PartialRequest::parse_non_partial (http.rs
lines 342 to 372): the method, path and version tokens of the request
line after splitting on spaces, in the same error order as the source. -/
def parse_tokens (t0 : List Char) (rest : List (List Char)) :
    Res RequestError RequestHeader :=
  pbind (parse_method t0) fun rt =>
  match rest with
  | [] => .err .BodyMissing
  | body :: rest2 =>
    match rest2 with
    | [] => .err .VersionMissing
    | version :: _ =>
      pbind (parse_version version) fun mv => .ok ⟨rt, body, mv.1, mv.2⟩

/-- PartialRequest::parse_non_partial from http.rs lines 332 to 373
(renamed): parses the request line into a RequestHeader. -/
def parse_fresh (line : List Char) : Res RequestError RequestHeader :=
  match splitChar ' ' (stripCRLF line) with
  | [] => .err .RequestTypeMissing
  | t0 :: rest => parse_tokens t0 rest

/-- End of call folding at http.rs lines 317 to 329: when no part is open
the collected fields and the finished parts are folded into the request
and the state part list is drained; otherwise the request is returned
unchanged with the more flag set. -/
def finish (req : Request) (st : RequestState) (fs : List RequestField) :
    ParseOut × RequestState :=
  if st.is_data_part then (⟨true, req⟩, st)
  else
    (⟨false, ⟨req.header, req.fields ++ fs, req.data ++ st.data⟩⟩,
      ⟨st.boundary, st.is_data_part, st.is_data_part_header, []⟩)

/-- PartialRequest::parse from http.rs lines 297 to 330 (the decoder
entry point, named decode in the spec). With no carried request the state
is reset and the first line is parsed as the request line; otherwise all
lines are continuation data for the carried request. -/
def parseChunk (carried : Option Request) (st : RequestState) (s : List Char) :
    Res RequestError (ParseOut × RequestState) :=
  match carried with
  | none =>
    match linesOf s with
    | [] => .err .HeaderMissing
    | l0 :: rest =>
      pbind (parse_fresh l0) fun hdr =>
      pbind (processLines defaultState rest) fun q =>
      .ok (finish ⟨hdr, [], []⟩ q.1 q.2)
  | some req =>
    pbind (processLines st (linesOf s)) fun q =>
    .ok (finish req q.1 q.2)

/-- Status from http.rs lines 376 to 380. -/
inductive Status where
  | Ok
  | NotFound
deriving DecidableEq, Repr

/-- Status::as_bytes from http.rs lines 382 to 394. -/
def Status.as_bytes : Status → List Char
  | .Ok => "HTTP/1.1 200 OK".toList
  | .NotFound => "HTTP/1.1 404 Not Found".toList

/-- ContentType from http.rs lines 396 to 414. -/
inductive ContentType where
  | Html | Javascript | Css | Png | Jpg | Webp | Gif | Txt
  | Icon | Json | Opus | Mpeg | Ttf | Woff | Wasm
deriving DecidableEq, Repr

/-- ContentType::create from http.rs lines 418 to 439: the fixed
extension table. -/
def ContentType.create (extension : List Char) : Option ContentType :=
  if extension = "html".toList then some .Html
  else if extension = "js".toList then some .Javascript
  else if extension = "css".toList then some .Css
  else if extension = "png".toList then some .Png
  else if extension = "jpg".toList ∨ extension = "jpeg".toList then some .Jpg
  else if extension = "webp".toList then some .Webp
  else if extension = "gif".toList then some .Gif
  else if extension = "txt".toList then some .Txt
  else if extension = "ico".toList then some .Icon
  else if extension = "json".toList then some .Json
  else if extension = "opus".toList then some .Opus
  else if extension = "mp3".toList then some .Mpeg
  else if extension = "ttf".toList then some .Ttf
  else if extension = "woff".toList then some .Woff
  else if extension = "wasm".toList then some .Wasm
  else none

/-- ContentType::as_bytes from http.rs lines 441 to 464: the fixed MIME
table. -/
def ContentType.as_bytes (c : ContentType) : List Char :=
  "Content-Type: ".toList ++
    (match c with
     | .Html => "text/html"
     | .Javascript => "application/javascript"
     | .Css => "text/css"
     | .Png => "image/png"
     | .Jpg => "image/jpeg"
     | .Webp => "image/webp"
     | .Gif => "image/gif"
     | .Txt => "text/plain"
     | .Icon => "image/x-icon"
     | .Json => "application/json"
     | .Opus => "audio/ogg"
     | .Mpeg => "audio/mpeg"
     | .Ttf => "font/ttf"
     | .Woff => "font/woff"
     | .Wasm => "application/wasm").toList

/-- response_header from http.rs lines 479 to 496: status line, content
type line, keep alive line and, for a nonzero length, a content length
line, each followed by CR LF. -/
def response_header (status : Status) (content_type : ContentType) (length : Nat) :
    List Char :=
  ((([status.as_bytes, content_type.as_bytes, "Connection: keep-alive".toList] ++
    (if length ≠ 0 then [("Content-Length: " ++ Nat.repr length).toList] else [])).map
      (fun f => f ++ ['\r', '\n'])).flatten)

/-- response from http.rs lines 466 to 477: the header block, a blank
line, then the body bytes verbatim. -/
def response (status : Status) (content_type : ContentType) (data : List Char) :
    List Char :=
  response_header status content_type data.length ++ ['\r', '\n'] ++ data

/-- Error from src/src/server.rs lines 19 to 27. -/
inductive ServerError where
  | httpError (e : RequestError)
  | unimplemented
  | writingError
  | directoryError
  | invalidExtension (e : Option (List Char))
deriving DecidableEq, Repr

/-- Model of std Path::extension on a path string (an external std
collaborator): the text after the last dot of the last path component,
none when there is no dot or the component starts with its only dot. -/
def extOf (p : List Char) : Option (List Char) :=
  let name := ((splitChar '/' p).getLastD [])
  match name.reverse.findIdx? (fun c => c = '.') with
  | none => none
  | some i =>
    if i + 1 = name.length then none
    else some (name.reverse.take i).reverse

/-- Modelled from the spec: SmolServer::extension_content_type is called
at src/src/server/post.rs line 40 but its definition is not under src/;
per spec section 6 the static file collaborator maps a file name to a
ContentType via the fixed extension table, and an unknown or missing
extension is an error. -/
def extension_content_type (p : List Char) : Res ServerError ContentType :=
  match extOf p with
  | none => .err (.invalidExtension none)
  | some e =>
    match ContentType.create e with
    | none => .err (.invalidExtension (some e))
    | some ct => .ok ct

/-- encode_data from src/src/server/post.rs lines 13 to 59: re-encodes
one DataPart as an outbound multipart part body. The Content-Disposition
is rewritten: a part whose name attribute is text_message becomes
name equals content with no content type line; any other part becomes
name equals files[0] keeping the filename, plus a content type line
derived from the filename extension. The three expect calls panic when
the respective field or attribute is missing. -/
def encode_data (fields : List RequestField) (data : List Char) :
    Res ServerError (List Char) :=
  match fields.find? (fun f => f.this.name = "Content-Disposition".toList) with
  | none => .panicked
  | some cdf =>
    let cdc := cdf.children
    match cdc.find? (fun f => f.name = "name".toList) with
    | none => .panicked
    | some nf =>
      let branch : Res ServerError (Option ContentType × List Char) :=
        if nf.body = "text_message".toList then
          .ok (none, "name=\"content\"".toList)
        else
          match cdc.find? (fun f => f.name = "filename".toList) with
          | none => .panicked
          | some ff =>
            pbind (extension_content_type ff.body) fun ct =>
            .ok (some ct,
              "name=\"files[0]\"; filename=\"".toList ++ ff.body ++ ['"'])
      pbind branch fun bc =>
      .ok ("Content-Disposition: form-data; ".toList ++ bc.2 ++ ['\r', '\n'] ++
        (match bc.1 with
         | some ct => ct.as_bytes ++ ['\r', '\n']
         | none => []) ++
        ['\r', '\n'] ++ data ++ ['\r', '\n'])

/-- The per part encoding loop of post::handle (post.rs lines 98 to
104): encode every part with nonempty payload, stopping at the first
error or panic. -/
def encodeParts : List DataPart → Res ServerError (List (List Char))
  | [] => .ok []
  | p :: ps =>
    pbind (encode_data p.fields p.data) fun e =>
    pbind (encodeParts ps) fun es => .ok (e :: es)

/-- Modelled from the spec: server.rs line 134 parses the chunk through a
FromStr implementation for Request that is not under src/; per spec
section 4.2 the decoder entry point takes a carried request and a state,
and a FromStr call has neither, so it decodes the chunk with no carried
request and a default state and yields the resulting request. -/
def request_from_str (s : List Char) : Res RequestError Request :=
  match parseChunk none defaultState s with
  | .ok x => .ok x.1.request
  | .err e => .err e
  | .panicked => .panicked

/-- Outcome of one SmolServer::respond call as observed by the driver
loop: either the new alive flag plus the response byte strings written,
or a terminating error, or a panic. -/
inductive DriveOut where
  | wrote (alive : Bool) (outs : List (List Char))
  | deadErr (e : ServerError)
  | deadPanic
deriving DecidableEq, Repr

/-- The canned not found response of SmolServer::not_found, server.rs
lines 198 to 203; producing it also clears the alive flag. -/
def nf404 : List Char := response .NotFound .Html ("404 not found".toList)

/-- The GET arm of SmolServer::respond (server.rs lines 146 to 183): the
path is the current directory joined with the raw request path, except
that the bare slash maps to index.html; a missing or unreadable file
produces the 404 response and clears alive; a readable file needs a
known extension and produces a 200 response with its bytes. -/
def respond_get (fs : List Char → Option (List Char)) (cwd : List Char)
    (alive : Bool) (body : List Char) : DriveOut :=
  match fs (if body = ['/'] then "index.html".toList else cwd ++ body) with
  | none => .wrote false [nf404]
  | some bytes =>
    match extOf (if body = ['/'] then "index.html".toList else cwd ++ body) with
    | none => .deadErr (.invalidExtension none)
    | some e =>
      match ContentType.create e with
      | none => .deadErr (.invalidExtension (some e))
      | some ct => .wrote alive [response .Ok ct bytes]

/-- The POST arm of SmolServer::respond, post::handle (post.rs lines 63
to 141) with the relay network abstracted as always succeeding: the
nonempty parts are re-encoded (errors and panics surface), then the file
at the request path is read and returned as a 200 response. -/
def respond_post (fs : List Char → Option (List Char)) (cwd : List Char)
    (alive : Bool) (req : Request) : DriveOut :=
  match encodeParts (req.data.filter (fun d => ¬ d.data.isEmpty)) with
  | .panicked => .deadPanic
  | .err e => .deadErr e
  | .ok _ =>
    match fs (cwd ++ req.header.body) with
    | none => .deadErr .writingError
    | some d2 => .wrote alive [response .Ok .Html d2]

/-- SmolServer::respond from server.rs lines 132 to 191, with the
filesystem as the oracle fs (a path maps to its readable content, none
meaning nonexistent or unreadable), cwd standing for env::current_dir,
and the outbound relay network of post::handle (an external collaborator)
assumed to succeed: the whole chunk is parsed from scratch and the
request type picks the GET or POST arm; parse errors and panics tear the
connection down. -/
def respond (fs : List Char → Option (List Char)) (cwd : List Char)
    (alive : Bool) (chunk : List Char) : DriveOut :=
  match request_from_str chunk with
  | .panicked => .deadPanic
  | .err e => .deadErr (.httpError e)
  | .ok req =>
    match req.header.request with
    | .Get => respond_get fs cwd alive req.header.body
    | .Post => respond_post fs cwd alive req

/-- The per connection loop of client_handler, main.rs lines 48 to 103,
abstracted over the TLS engine and timing: each decrypted plaintext
chunk is handed to respond; the responses it writes are collected; a
respond error or panic tears the connection down; after each iteration
the loop stops when the alive flag is false. -/
def clientLoop (fs : List Char → Option (List Char)) (cwd : List Char) :
    Bool → List (List Char) → List (List Char)
  | _, [] => []
  | alive, c :: cs =>
    match respond fs cwd alive c with
    | .wrote a outs => outs ++ (if a then clientLoop fs cwd a cs else [])
    | .deadErr _ => []
    | .deadPanic => []

/-- Claim side helper: the request of a successful decode. -/
def outOf (r : Res RequestError (ParseOut × RequestState)) : Option ParseOut :=
  match r with
  | .ok x => some x.1
  | _ => none

/-- Claim side helper: the boundary of the state after a successful
decode. -/
def boundaryOf (r : Res RequestError (ParseOut × RequestState)) :
    Option (List Char) :=
  match r with
  | .ok x => x.2.boundary
  | _ => none

/-- Claim side helper: decode a first piece fresh, then decode a second
piece carrying the returned request and state, as in the chunk boundary
invariance claim. -/
def twoCall (s1 s2 : List Char) : Res RequestError (ParseOut × RequestState) :=
  match parseChunk none defaultState s1 with
  | .ok (o, st) => parseChunk (some o.request) st s2
  | e => e

/-- Claim side helper: the decoder boundary, mini header and payload
classification run over an emitted part body framed by its boundary
lines, from a state with the boundary already set. -/
def decodeFramed (b : List Char) (body : List Char) :
    Res RequestError (RequestState × List RequestField) :=
  processLines ⟨some b, false, false, []⟩
    (linesOf (['-', '-'] ++ b ++ ['\r', '\n'] ++ body ++ ['-', '-'] ++ b ++ "--\r\n".toList))

/-- Claim side helper: encode a part then decode the framed bytes; none
when either direction fails or panics. -/
def roundTrip (b : List Char) (fields : List RequestField) (data : List Char) :
    Option (RequestState × List RequestField) :=
  match encode_data fields data with
  | .ok e =>
    match decodeFramed b e with
    | .ok q => some q
    | _ => none
  | _ => none

/-- The mini header line emitted by encode_data for a text message part. -/
def cdLine : List Char :=
  "Content-Disposition: form-data; name=\"content\"\r\n".toList

/-- The decoded form of cdLine. -/
def cdField : RequestField :=
  ⟨⟨"Content-Disposition".toList, "form-data".toList⟩,
    [⟨"name".toList, "content".toList⟩]⟩

/-- The original mini header fields of a text message part before the
encoder rewrites them. -/
def c4fields : List RequestField :=
  [⟨⟨"Content-Disposition".toList, "form-data".toList⟩,
    [⟨"name".toList, "text_message".toList⟩]⟩]

/-- First piece of a split multipart POST: header, blank line, opening
boundary and empty mini header, no payload yet. -/
def c2s1 : List Char :=
  "POST /f HTTP/1.1\r\nContent-Type: multipart/form-data; boundary=\"B\"\r\n\r\n--B\r\n\r\n".toList

/-- Second piece of the split multipart POST: the payload and the
closing boundary. -/
def c2s2 : List Char := "hi\r\n--B--\r\n".toList

/-- Claim side helper: what the boundary branch of parse_single does to
the part list: the trailing CR LF of the last part is dropped when
present. -/
def trimData (l : List DataPart) : List DataPart :=
  match l.getLast? with
  | none => []
  | some p =>
    if p.data.drop (p.data.length - 2) = ['\r', '\n'] then
      l.dropLast ++ [⟨p.fields, p.data.take (p.data.length - 2)⟩]
    else l.dropLast ++ [p]

/-- Claim side helper: the byte string of a method token. -/
def methodStr : RequestType → List Char
  | .Get => "GET".toList
  | .Post => "POST".toList

/-- First piece of a multipart request split at a line boundary inside
the body: the request line, the Content-Type header with boundary B, the
blank line, the first boundary line and the empty part mini header. -/
def c1s1 : List Char :=
  "POST / HTTP/1.1\r\nContent-Type: multipart/form-data; boundary=\"B\"\r\n\r\n--B\r\n\r\n".toList

/-- Second piece: the part payload and the closing boundary line. -/
def c1s2 : List Char := "hi\r\n--B--\r\n".toList

/-- Prefix of a multipart request up to and including the first boundary
line. -/
def c5pre : List Char :=
  "POST / HTTP/1.1\r\nContent-Type: multipart/form-data; boundary=\"B\"\r\n\r\n--B\r\n".toList

/-- The same prefix followed by a part mini header line that declares a
second multipart Content-Type with boundary Z. -/
def c5full : List Char :=
  c5pre ++ "Content-Type: multipart/mixed; boundary=\"Z\"\r\n".toList

/-- A multipart request whose first boundary looking line is shorter than
two dashes plus the declared boundary. -/
def c9s : List Char :=
  "POST / HTTP/1.1\r\nContent-Type: multipart/form-data; boundary=\"BBBB\"\r\n\r\n--B\r\n".toList

/-- A multipart request whose boundary line is followed by exactly one
byte, the bare newline. -/
def c10s : List Char :=
  "POST / HTTP/1.1\r\nContent-Type: multipart/form-data; boundary=\"B\"\r\n\r\n--B\n".toList

/-- Spec side helper, from the field parsing claim words: strip one pair
of matching outer double quotes when present on both ends. -/
def dequote (l : List Char) : List Char :=
  if 2 ≤ l.length ∧ l.head? = some '"' ∧ l.getLast? = some '"' then
    (l.drop 1).dropLast
  else l

/-
  Helper lemmas about the line splitter, the token splitter and the
  fold over lines.
-/

theorem linesOf_cons (a : Char) (as : List Char) :
    linesOf (a :: as) =
      if a = '\n' then [a] :: linesOf as
      else
        match linesOf as with
        | [] => [[a]]
        | h :: t => (a :: h) :: t := rfl

theorem splitChar_cons (sep a : Char) (as : List Char) :
    splitChar sep (a :: as) =
      if a = sep then [] :: splitChar sep as
      else
        match splitChar sep as with
        | [] => [[a]]
        | h :: t => (a :: h) :: t := rfl

theorem pbind_ok {ε α β : Type} (a : α) (f : α → Res ε β) :
    pbind (.ok a) f = f a := rfl

theorem pbind_err {ε α β : Type} (e : ε) (f : α → Res ε β) :
    pbind (.err e) f = .err e := rfl

theorem pbind_panicked {ε α β : Type} (f : α → Res ε β) :
    pbind .panicked f = .panicked := rfl

theorem pbind_assoc {ε α β γ : Type} (x : Res ε α) (f : α → Res ε β)
    (g : β → Res ε γ) :
    pbind (pbind x f) g = pbind x (fun a => pbind (f a) g) := by
  cases x <;> rfl

theorem pbind_congr {ε α β : Type} {x : Res ε α} {f g : α → Res ε β}
    (h : ∀ a, f a = g a) : pbind x f = pbind x g := by
  cases x <;> simp [pbind, h]

theorem processLines_nil (st : RequestState) : processLines st [] = .ok (st, []) := rfl

theorem processLines_cons (st : RequestState) (l : List Char) (ls : List (List Char)) :
    processLines st (l :: ls) =
      pbind (parse_single st l) fun so =>
      pbind (processLines so.1 ls) fun q =>
      .ok (q.1,
        match so.2 with
        | none => q.2
        | some f => f :: q.2) := rfl

theorem linesOf_ne_nil {l : List Char} (h : l ≠ []) : linesOf l ≠ [] := by
  match l with
  | [] => exact absurd rfl h
  | a :: as =>
    rw [linesOf_cons]
    by_cases ha : a = '\n' <;> simp [ha]
    cases hr : linesOf as <;> simp

theorem linesOf_cons_ne {a : Char} {as h : List Char} {t : List (List Char)}
    (ha : a ≠ '\n') (hr : linesOf as = h :: t) :
    linesOf (a :: as) = (a :: h) :: t := by
  rw [linesOf_cons, if_neg ha, hr]

theorem linesOf_nl (as : List Char) : linesOf ('\n' :: as) = ['\n'] :: linesOf as := by
  rw [linesOf_cons, if_pos rfl]

theorem linesOf_append {a b : List Char} (h : a.getLast? = some '\n') :
    linesOf (a ++ b) = linesOf a ++ linesOf b := by
  induction a with
  | nil => simp at h
  | cons x xs ih =>
    match xs, h with
    | [], h =>
      have hx : x = '\n' := by simpa using h
      subst hx
      simp [linesOf_nl, linesOf]
    | y :: ys, h =>
      have h2 : (y :: ys).getLast? = some '\n' := by
        rw [List.getLast?_cons_cons] at h
        exact h
      have ih2 := ih h2
      show linesOf (x :: ((y :: ys) ++ b)) = linesOf (x :: (y :: ys)) ++ linesOf b
      by_cases hx : x = '\n'
      · subst hx
        rw [linesOf_nl, linesOf_nl, ih2]
        simp
      · cases hr : linesOf (y :: ys) with
        | nil => exact absurd hr (linesOf_ne_nil (by simp))
        | cons h3 t3 =>
          have hab : linesOf ((y :: ys) ++ b) = h3 :: (t3 ++ linesOf b) := by
            rw [ih2, hr]; simp
          rw [linesOf_cons_ne hx hab, linesOf_cons_ne hx hr]
          simp

theorem linesOf_single {x : List Char} (h : '\n' ∉ x) :
    linesOf (x ++ ['\n']) = [x ++ ['\n']] := by
  induction x with
  | nil => simp [linesOf_nl, linesOf]
  | cons a as ih =>
    have ha : a ≠ '\n' := fun he => h (he ▸ List.mem_cons_self a as)
    have ih2 := ih (fun hm => h (List.mem_cons_of_mem a hm))
    show linesOf (a :: (as ++ ['\n'])) = [a :: (as ++ ['\n'])]
    rw [linesOf_cons_ne ha ih2]

theorem flatten_linesOf (l : List Char) : (linesOf l).flatten = l := by
  induction l with
  | nil => simp [linesOf]
  | cons a as ih =>
    rw [linesOf_cons]
    by_cases ha : a = '\n'
    · simp [ha, ih]
    · simp only [if_neg ha]
      cases hr : linesOf as with
      | nil =>
        have : as = [] := by
          cases as with
          | nil => rfl
          | cons b bs => exact absurd hr (linesOf_ne_nil (by simp))
        simp [this]
      | cons h3 t3 =>
        rw [hr] at ih
        simpa using ih

theorem mem_of_mem_linesOf {s l : List Char} {c : Char}
    (hl : l ∈ linesOf s) (hc : c ∈ l) : c ∈ s := by
  have : c ∈ (linesOf s).flatten := List.mem_flatten.mpr ⟨l, hl, hc⟩
  rwa [flatten_linesOf] at this

theorem splitChar_not_mem {sep : Char} {l : List Char} (h : sep ∉ l) :
    splitChar sep l = [l] := by
  induction l with
  | nil => rfl
  | cons a as ih =>
    have ha : a ≠ sep := fun he => h (he ▸ List.mem_cons_self a as)
    have ih2 := ih (fun hm => h (List.mem_cons_of_mem a hm))
    rw [splitChar_cons, if_neg ha, ih2]

theorem splitChar_ne_nil (sep : Char) (l : List Char) : splitChar sep l ≠ [] := by
  induction l with
  | nil => simp [splitChar]
  | cons a as ih =>
    rw [splitChar_cons]
    by_cases ha : a = sep <;> simp [ha]
    cases hr : splitChar sep as <;> simp

theorem splitChar_append {sep : Char} {l r : List Char} (h : sep ∉ l) :
    splitChar sep (l ++ sep :: r) = l :: splitChar sep r := by
  induction l with
  | nil =>
    show splitChar sep (sep :: r) = [] :: splitChar sep r
    rw [splitChar_cons, if_pos rfl]
  | cons a as ih =>
    have ha : a ≠ sep := fun he => h (he ▸ List.mem_cons_self a as)
    have ih2 := ih (fun hm => h (List.mem_cons_of_mem a hm))
    show splitChar sep (a :: (as ++ sep :: r)) = (a :: as) :: splitChar sep r
    rw [splitChar_cons, if_neg ha, ih2]

theorem mem_of_mem_splitChar {sep : Char} {l seg : List Char} {c : Char}
    (hs : seg ∈ splitChar sep l) (hc : c ∈ seg) : c ∈ l := by
  induction l generalizing seg with
  | nil =>
    simp [splitChar] at hs
    subst hs
    simp at hc
  | cons a as ih =>
    rw [splitChar_cons] at hs
    by_cases ha : a = sep
    · simp only [if_pos ha] at hs
      rcases List.mem_cons.mp hs with h1 | h1
      · subst h1; simp at hc
      · exact List.mem_cons_of_mem a (ih h1 hc)
    · simp only [if_neg ha] at hs
      cases hr : splitChar sep as with
      | nil => exact absurd hr (splitChar_ne_nil sep as)
      | cons h3 t3 =>
        rw [hr] at hs
        rcases List.mem_cons.mp hs with h1 | h1
        · subst h1
          rcases List.mem_cons.mp hc with h2 | h2
          · exact h2 ▸ List.mem_cons_self a as
          · exact List.mem_cons_of_mem a
              (ih (hr ▸ List.mem_cons_self h3 t3) h2)
        · exact List.mem_cons_of_mem a (ih (hr ▸ List.mem_cons_of_mem h3 h1) hc)

theorem processLines_append (st : RequestState) (l1 l2 : List (List Char)) :
    processLines st (l1 ++ l2) =
      pbind (processLines st l1) fun q1 =>
      pbind (processLines q1.1 l2) fun q2 =>
      .ok (q2.1, q1.2 ++ q2.2) := by
  induction l1 generalizing st with
  | nil =>
    show processLines st l2 = _
    rw [processLines_nil, pbind_ok]
    cases h : processLines st l2 <;> simp [pbind]
  | cons l ls ih =>
    show processLines st (l :: (ls ++ l2)) = _
    rw [processLines_cons, processLines_cons, pbind_assoc]
    apply pbind_congr
    intro so
    rw [ih so.1, pbind_assoc, pbind_assoc]
    apply pbind_congr
    intro qa
    rw [pbind_assoc, pbind_ok]
    apply pbind_congr
    intro qb
    rw [pbind_ok]
    cases so.2 <;> simp

theorem stripCRLF_append (y : List Char) : stripCRLF (y ++ ['\r', '\n']) = y := by
  unfold stripCRLF
  have hl : (y ++ ['\r', '\n']).length - 2 = y.length := by simp
  rw [hl, List.drop_left, List.take_left]
  simp

theorem tokens_of_reqline {G p V : List Char}
    (hG : ' ' ∉ G) (hp : ' ' ∉ p) (hV : ' ' ∉ V) :
    splitChar ' ' (G ++ [' '] ++ p ++ [' '] ++ V) = [G, p, V] := by
  have h1 : G ++ [' '] ++ p ++ [' '] ++ V = G ++ ' ' :: (p ++ ' ' :: V) := by simp
  rw [h1, splitChar_append hG, splitChar_append hp, splitChar_not_mem hV]

theorem parseChunk_none_nil {st : RequestState} {s : List Char}
    (h : linesOf s = []) : parseChunk none st s = .err .HeaderMissing := by
  simp only [parseChunk]
  rw [h]

theorem parseChunk_none_cons {st : RequestState} {s l0 : List Char}
    {rest : List (List Char)} (h : linesOf s = l0 :: rest) :
    parseChunk none st s =
      pbind (parse_fresh l0) fun hdr =>
      pbind (processLines defaultState rest) fun q =>
      .ok (finish ⟨hdr, [], []⟩ q.1 q.2) := by
  simp only [parseChunk]
  rw [h]

theorem parseChunk_some (req : Request) (st : RequestState) (s : List Char) :
    parseChunk (some req) st s =
      pbind (processLines st (linesOf s)) fun q =>
      .ok (finish req q.1 q.2) := rfl

theorem parseChunk_single {x : List Char} (h : '\n' ∉ x) :
    parseChunk none defaultState (x ++ ['\n']) =
      pbind (parse_fresh (x ++ ['\n'])) fun hdr =>
      .ok (⟨false, ⟨hdr, [], []⟩⟩, defaultState) := by
  unfold parseChunk
  rw [linesOf_single h]
  simp only []
  apply pbind_congr
  intro hdr
  rw [processLines_nil, pbind_ok]
  simp [finish, defaultState]

theorem parseChunk_reqline (G p V : List Char)
    (hG1 : ' ' ∉ G) (hG2 : '\n' ∉ G) (hp1 : ' ' ∉ p) (hp2 : '\n' ∉ p)
    (hV1 : ' ' ∉ V) (hV2 : '\n' ∉ V) :
    parseChunk none defaultState (G ++ [' '] ++ p ++ [' '] ++ V ++ ['\r', '\n']) =
      pbind (parse_tokens G [p, V]) fun hdr =>
      .ok (⟨false, ⟨hdr, [], []⟩⟩, defaultState) := by
  have hx : '\n' ∉ G ++ [' '] ++ p ++ [' '] ++ V ++ ['\r'] := by
    intro hc
    rcases List.mem_append.mp hc with hc | hc
    · rcases List.mem_append.mp hc with hc | hc
      · rcases List.mem_append.mp hc with hc | hc
        · rcases List.mem_append.mp hc with hc | hc
          · rcases List.mem_append.mp hc with hc | hc
            · exact hG2 hc
            · exact absurd hc (by decide)
          · exact hp2 hc
        · exact absurd hc (by decide)
      · exact hV2 hc
    · exact absurd hc (by decide)
  have hshape : G ++ [' '] ++ p ++ [' '] ++ V ++ ['\r', '\n'] =
      (G ++ [' '] ++ p ++ [' '] ++ V ++ ['\r']) ++ ['\n'] := by simp
  rw [hshape, parseChunk_single hx]
  have hfresh : parse_fresh ((G ++ [' '] ++ p ++ [' '] ++ V ++ ['\r']) ++ ['\n']) =
      parse_tokens G [p, V] := by
    unfold parse_fresh
    rw [show (G ++ [' '] ++ p ++ [' '] ++ V ++ ['\r']) ++ ['\n'] =
        (G ++ [' '] ++ p ++ [' '] ++ V) ++ ['\r', '\n'] by simp]
    rw [stripCRLF_append, tokens_of_reqline hG1 hp1 hV1]
  rw [hfresh]

/-- C7: for every status, content type and body, the built response is
exactly the status line, the Content-Type line from the fixed table, the
fixed keep alive line, a Content-Length line present exactly when the
body is nonempty, each terminated by CR LF, then one blank line and the
body bytes verbatim; in particular no transfer encoding header is ever
produced. -/
theorem C7_response_framing (status : Status) (ct : ContentType) (data : List Char) :
    response status ct data =
      status.as_bytes ++ ['\r', '\n'] ++
      ct.as_bytes ++ ['\r', '\n'] ++
      "Connection: keep-alive".toList ++ ['\r', '\n'] ++
      (if data.length ≠ 0 then
        "Content-Length: ".toList ++ (Nat.repr data.length).toList ++ ['\r', '\n']
       else []) ++
      ['\r', '\n'] ++ data := by
  unfold response response_header
  by_cases h : data.length ≠ 0 <;> simp [h, List.append_assoc]

/-- C3: request lines METHOD PATH HTTP slash 1 dot MINOR with CR LF
decode to the exact method, raw path, major one and minor digit; any
other method token fails with UnknownRequestType carrying the token; a
version token that is not exactly eight bytes starting HTTP slash fails
with MalformedVersion; any major digit other than one fails with
UnsupportedMajor. -/
theorem C3_request_line :
    (∀ (rt : RequestType) (p : List Char) (k : Nat),
      ' ' ∉ p → '\n' ∉ p → k < 10 →
      parseChunk none defaultState
        (methodStr rt ++ [' '] ++ p ++ [' '] ++ "HTTP/1.".toList ++
          [Char.ofNat (48 + k)] ++ ['\r', '\n']) =
        .ok (⟨false, ⟨⟨rt, p, 1, k⟩, [], []⟩⟩, defaultState)) ∧
    (∀ m : List Char, ' ' ∉ m → '\n' ∉ m →
      m ≠ "GET".toList → m ≠ "POST".toList →
      parseChunk none defaultState (m ++ [' '] ++ "/".toList ++ [' '] ++
          "HTTP/1.1".toList ++ ['\r', '\n']) =
        .err (.UnknownRequestType m)) ∧
    (∀ v : List Char, ' ' ∉ v → '\n' ∉ v →
      v.length ≠ 8 ∨ v.take 5 ≠ "HTTP/".toList →
      parseChunk none defaultState ("GET".toList ++ [' '] ++ "/".toList ++ [' '] ++
          v ++ ['\r', '\n']) =
        .err .MalformedVersion) ∧
    (∀ k : Nat, k < 10 → k ≠ 1 →
      parseChunk none defaultState
        ("GET".toList ++ [' '] ++ "/".toList ++ [' '] ++ "HTTP/".toList ++
          [Char.ofNat (48 + k)] ++ ".1".toList ++ ['\r', '\n']) =
        .err .UnsupportedMajor) := by
  have hchar : ∀ k, k < 10 →
      Char.ofNat (48 + k) ≠ ' ' ∧ Char.ofNat (48 + k) ≠ '\n' ∧
      to_digit10 (Char.ofNat (48 + k)) = some k := by decide
  refine ⟨?_, ?_, ?_, ?_⟩
  · intro rt p k hp hnp hk
    obtain ⟨hd1, hd2, hdig⟩ := hchar k hk
    have h1 : methodStr rt ++ [' '] ++ p ++ [' '] ++ "HTTP/1.".toList ++
        [Char.ofNat (48 + k)] ++ ['\r', '\n'] =
        methodStr rt ++ [' '] ++ p ++ [' '] ++
          ("HTTP/1.".toList ++ [Char.ofNat (48 + k)]) ++ ['\r', '\n'] := by simp
    have hG1 : ' ' ∉ methodStr rt := by cases rt <;> decide
    have hG2 : '\n' ∉ methodStr rt := by cases rt <;> decide
    have hV1 : ' ' ∉ "HTTP/1.".toList ++ [Char.ofNat (48 + k)] := by
      intro hc
      rcases List.mem_append.mp hc with hc | hc
      · exact absurd hc (by decide)
      · exact hd1 ((List.mem_singleton.mp hc).symm)
    have hV2 : '\n' ∉ "HTTP/1.".toList ++ [Char.ofNat (48 + k)] := by
      intro hc
      rcases List.mem_append.mp hc with hc | hc
      · exact absurd hc (by decide)
      · exact hd2 ((List.mem_singleton.mp hc).symm)
    rw [h1, parseChunk_reqline (methodStr rt) p
      ("HTTP/1.".toList ++ [Char.ofNat (48 + k)]) hG1 hG2 hp hnp hV1 hV2]
    have hmaj : to_digit10 '1' = some 1 := by decide
    have hmeth : parse_method (methodStr rt) = .ok rt := by
      cases rt <;> rfl
    have hver : parse_version ['H', 'T', 'T', 'P', '/', '1', '.', Char.ofNat (48 + k)] =
        .ok (1, k) := by
      unfold parse_version
      rw [if_neg (by simp)]
      simp [hmaj, hdig]
    simp [parse_tokens, hmeth, hver, pbind]
  · intro m hm hnm hg hpo
    rw [parseChunk_reqline m "/".toList "HTTP/1.1".toList hm hnm
      (by decide) (by decide) (by decide) (by decide)]
    have hmeth : parse_method m = .err (.UnknownRequestType m) := by
      unfold parse_method
      rw [if_neg hg, if_neg hpo]
    simp [parse_tokens, hmeth, pbind]
  · intro v hv hnv hbad
    rw [parseChunk_reqline "GET".toList "/".toList v (by decide) (by decide)
      (by decide) (by decide) hv hnv]
    have hver : parse_version v = .err .MalformedVersion := by
      unfold parse_version
      rw [if_pos hbad]
    simp [parse_tokens, parse_method, hver, pbind]
  · intro k hk hk1
    obtain ⟨hd1, hd2, hdig⟩ := hchar k hk
    have h1 : "GET".toList ++ [' '] ++ "/".toList ++ [' '] ++ "HTTP/".toList ++
        [Char.ofNat (48 + k)] ++ ".1".toList ++ ['\r', '\n'] =
        "GET".toList ++ [' '] ++ "/".toList ++ [' '] ++
          ("HTTP/".toList ++ [Char.ofNat (48 + k)] ++ ".1".toList) ++ ['\r', '\n'] := by
      simp
    have hV1 : ' ' ∉ "HTTP/".toList ++ [Char.ofNat (48 + k)] ++ ".1".toList := by
      intro hc
      rcases List.mem_append.mp hc with hc | hc
      · rcases List.mem_append.mp hc with hc | hc
        · exact absurd hc (by decide)
        · exact hd1 ((List.mem_singleton.mp hc).symm)
      · exact absurd hc (by decide)
    have hV2 : '\n' ∉ "HTTP/".toList ++ [Char.ofNat (48 + k)] ++ ".1".toList := by
      intro hc
      rcases List.mem_append.mp hc with hc | hc
      · rcases List.mem_append.mp hc with hc | hc
        · exact absurd hc (by decide)
        · exact hd2 ((List.mem_singleton.mp hc).symm)
      · exact absurd hc (by decide)
    rw [h1, parseChunk_reqline "GET".toList "/".toList
      ("HTTP/".toList ++ [Char.ofNat (48 + k)] ++ ".1".toList)
      (by decide) (by decide) (by decide) (by decide) hV1 hV2]
    have hver : parse_version ['H', 'T', 'T', 'P', '/', Char.ofNat (48 + k), '.', '1'] =
        .err .UnsupportedMajor := by
      unfold parse_version
      rw [if_neg (by simp)]
      simp [hdig, hk1]
    simp [parse_tokens, parse_method, hver, pbind]

/-- C1 counterexample: for the valid, complete multipart request
c1s1 ++ c1s2 split at a line boundary inside the body, the two piece
decode (carrying the returned request and state) completes but loses the
top level Content-Type field, so its final Request differs from the one
piece decode of the same bytes. -/
theorem C1_counter :
    (outOf (twoCall c1s1 c1s2)).map (fun o => (o.needsMore, o.request.fields)) =
      some (false, []) ∧
    (outOf (parseChunk none defaultState (c1s1 ++ c1s2))).map
        (fun o => (o.needsMore, o.request.fields)) =
      some (false,
        [⟨⟨"Content-Type".toList, "multipart/form-data".toList⟩,
          [⟨"boundary".toList, "B".toList⟩]⟩]) ∧
    twoCall c1s1 c1s2 ≠ parseChunk none defaultState (c1s1 ++ c1s2) :=
  ⟨by decide, by decide, by decide⟩

/-- C1 amended: chunk boundary invariance holds for a split at a line
boundary whenever the first piece decodes completely (is_partial false)
with no data parts yet, that is, when the split lies in the top level
header section before the first boundary line: the second call on the
carried request and state then returns exactly the one call result. A
split inside the multipart body is excluded (see the counterexample: the
first piece's top level fields are discarded there). -/
theorem C1_split_decode (s1 s2 : List Char) (pr1 pr2 : ParseOut)
    (st1 st2 : RequestState)
    (h1 : s1.getLast? = some '\n')
    (h2 : parseChunk none defaultState s1 = .ok (pr1, st1))
    (h3 : pr1.needsMore = false)
    (h4 : pr1.request.data = [])
    (h5 : parseChunk (some pr1.request) st1 s2 = .ok (pr2, st2))
    (h6 : pr2.needsMore = false) :
    parseChunk none defaultState (s1 ++ s2) = .ok (pr2, st2) := by
  cases hls : linesOf s1 with
  | nil => rw [parseChunk_none_nil hls] at h2; exact absurd h2 (by simp)
  | cons l0 rest =>
    rw [parseChunk_none_cons hls] at h2
    cases hf : parse_fresh l0 with
    | err e => rw [hf, pbind_err] at h2; exact absurd h2 (by simp)
    | panicked => rw [hf, pbind_panicked] at h2; exact absurd h2 (by simp)
    | ok hdr =>
      rw [hf, pbind_ok] at h2
      cases hq : processLines defaultState rest with
      | err e => rw [hq, pbind_err] at h2; exact absurd h2 (by simp)
      | panicked => rw [hq, pbind_panicked] at h2; exact absurd h2 (by simp)
      | ok q =>
        obtain ⟨⟨b0, i0, j0, d0⟩, f1⟩ := q
        rw [hq, pbind_ok] at h2
        have hX := Res.ok.inj h2
        unfold finish at hX
        cases i0 with
        | true =>
          simp at hX
          obtain ⟨hA, hB⟩ := hX
          subst hA
          simp at h3
        | false =>
          simp at hX
          obtain ⟨hA, hB⟩ := hX
          subst hA
          subst hB
          simp at h4
          subst h4
          rw [parseChunk_some] at h5
          rw [parseChunk_none_cons
            (show linesOf (s1 ++ s2) = l0 :: (rest ++ linesOf s2) from by
              rw [linesOf_append h1, hls]; rfl)]
          simp only [hf, pbind_ok, processLines_append, hq]
          cases hq2 : processLines (⟨b0, false, j0, []⟩ : RequestState) (linesOf s2) with
          | err e => simp only [hq2, pbind_err] at h5; exact absurd h5 (by simp)
          | panicked => simp only [hq2, pbind_panicked] at h5; exact absurd h5 (by simp)
          | ok q2 =>
            obtain ⟨⟨bB, iB, jB, dB⟩, f2⟩ := q2
            simp only [hq2, pbind_ok] at h5
            simp only [hq2, pbind_ok]
            have hY := Res.ok.inj h5
            unfold finish at hY
            cases iB with
            | true =>
              simp at hY
              obtain ⟨hA2, hB2⟩ := hY
              subst hA2
              simp at h6
            | false =>
              simp at hY
              obtain ⟨hA2, hB2⟩ := hY
              subst hA2
              subst hB2
              unfold finish
              simp

/-- Witness for C1: a complete multipart request split right after the
request line decodes to the same final Request both ways. -/
theorem C1_split_decode_witness :
    parseChunk none defaultState
      ("POST / HTTP/1.1\r\n".toList ++
        "Content-Type: multipart/form-data; boundary=\"B\"\r\n\r\n--B\r\n\r\nhi\r\n--B--\r\n".toList) =
      .ok (⟨false, ⟨⟨.Post, "/".toList, 1, 1⟩,
        [⟨⟨"Content-Type".toList, "multipart/form-data".toList⟩,
          [⟨"boundary".toList, "B".toList⟩]⟩],
        [⟨[], "hi".toList⟩]⟩⟩,
        ⟨some "B".toList, false, false, []⟩) :=
  C1_split_decode "POST / HTTP/1.1\r\n".toList
    "Content-Type: multipart/form-data; boundary=\"B\"\r\n\r\n--B\r\n\r\nhi\r\n--B--\r\n".toList
    ⟨false, ⟨⟨.Post, "/".toList, 1, 1⟩, [], []⟩⟩
    ⟨false, ⟨⟨.Post, "/".toList, 1, 1⟩,
      [⟨⟨"Content-Type".toList, "multipart/form-data".toList⟩,
        [⟨"boundary".toList, "B".toList⟩]⟩],
      [⟨[], "hi".toList⟩]⟩⟩
    defaultState ⟨some "B".toList, false, false, []⟩
    (by decide) (by decide) rfl rfl (by decide) rfl

theorem parse_normal_boundary {st : RequestState} {line : List Char}
    {sf : RequestState × RequestField}
    (h : parse_normal st line = .ok sf) (hb : st.boundary.isSome = true) :
    sf.1.boundary.isSome = true := by
  unfold parse_normal at h
  cases ha : parse_arg line with
  | err e => rw [ha, pbind_err] at h; exact absurd h (by simp)
  | panicked => rw [ha, pbind_panicked] at h; exact absurd h (by simp)
  | ok simple =>
    rw [ha, pbind_ok] at h
    cases hs : parse_field_split simple.name simple.body with
    | err e => rw [hs, pbind_err] at h; exact absurd h (by simp)
    | panicked => rw [hs, pbind_panicked] at h; exact absurd h (by simp)
    | ok bc =>
      rw [hs, pbind_ok] at h
      by_cases hCT : simple.name = "Content-Type".toList ∧
          bc.1.take 9 = "multipart".toList
      · rw [if_pos hCT] at h
        cases hh : bc.2.head? with
        | none => rw [hh] at h; exact absurd h (by simp)
        | some inner =>
          rw [hh] at h
          have := Res.ok.inj h
          rw [← this]
          rfl
      · rw [if_neg hCT] at h
        have := Res.ok.inj h
        rw [← this]
        exact hb

theorem parse_single_tail_boundary {st : RequestState} {line : List Char}
    {q : RequestState × Option RequestField}
    (h : parse_single_tail st line = .ok q) (hb : st.boundary.isSome = true) :
    q.1.boundary.isSome = true := by
  unfold parse_single_tail at h
  by_cases hd : st.is_data_part = true
  · rw [if_pos hd] at h
    by_cases hh : st.is_data_part_header = true
    · rw [if_pos hh] at h
      by_cases hbl : line = ['\r', '\n']
      · rw [if_pos hbl] at h
        have := Res.ok.inj h
        rw [← this]
        exact hb
      · rw [if_neg hbl] at h
        cases hn : parse_normal st line with
        | err e => rw [hn, pbind_err] at h; exact absurd h (by simp)
        | panicked => rw [hn, pbind_panicked] at h; exact absurd h (by simp)
        | ok sf =>
          rw [hn, pbind_ok] at h
          cases hl : sf.1.data.getLast? with
          | none => rw [hl] at h; exact absurd h (by simp)
          | some p =>
            rw [hl] at h
            have := Res.ok.inj h
            rw [← this]
            exact parse_normal_boundary hn hb
    · rw [if_neg hh] at h
      cases hl : st.data.getLast? with
      | none => rw [hl] at h; exact absurd h (by simp)
      | some p =>
        rw [hl] at h
        have := Res.ok.inj h
        rw [← this]
        exact hb
  · rw [if_neg hd] at h
    by_cases he : stripCRLF line = []
    · rw [if_pos he] at h
      have := Res.ok.inj h
      rw [← this]
      exact hb
    · rw [if_neg he] at h
      cases hn : parse_normal st (stripCRLF line) with
      | err e => rw [hn, pbind_err] at h; exact absurd h (by simp)
      | panicked => rw [hn, pbind_panicked] at h; exact absurd h (by simp)
      | ok sf =>
        rw [hn, pbind_ok] at h
        have := Res.ok.inj h
        rw [← this]
        exact parse_normal_boundary hn hb

/-- C5 counterexample: the decoder state after the multipart header and
first boundary line carries boundary B, but one further line, a
Content-Type field with a multipart value inside the part's own mini
header, overwrites it with Z: the boundary is assigned twice and changes
after being set. -/
theorem C5_counter :
    boundaryOf (parseChunk none defaultState c5pre) = some "B".toList ∧
    boundaryOf (parseChunk none defaultState c5full) = some "Z".toList ∧
    ("B".toList : List Char) ≠ "Z".toList :=
  ⟨by decide, by decide, by decide⟩

/-- C5 amended: the boundary is never cleared once set, parse_single
keeps it some value, but it is not immutable: any later Content-Type
field whose primary value starts with multipart, including one inside a
part's own mini header, overwrites it with its first child attribute
value (see the counterexample). -/
theorem C5_boundary_set_stays (st : RequestState) (line : List Char)
    (q : RequestState × Option RequestField)
    (h : parse_single st line = .ok q) (hb : st.boundary.isSome = true) :
    q.1.boundary.isSome = true := by
  unfold parse_single at h
  by_cases h2 : line.take 2 = ['-', '-']
  · rw [if_pos h2] at h
    obtain ⟨b, hbb⟩ := Option.isSome_iff_exists.mp hb
    rw [hbb] at h
    simp only [] at h
    by_cases h3 : (line.drop 2).length < b.length
    · rw [if_pos h3] at h; exact absurd h (by simp)
    · rw [if_neg h3] at h
      by_cases h4 : (line.drop 2).take b.length = b
      · rw [if_pos h4] at h
        cases he : boundary_line_end ((line.drop 2).drop b.length) with
        | err e => rw [he, pbind_err] at h; exact absurd h (by simp)
        | panicked => rw [he, pbind_panicked] at h; exact absurd h (by simp)
        | ok isEnd =>
          rw [he, pbind_ok] at h
          cases ht : trim_last_part st.data with
          | err e => rw [ht, pbind_err] at h; exact absurd h (by simp)
          | panicked => rw [ht, pbind_panicked] at h; exact absurd h (by simp)
          | ok d1 =>
            rw [ht, pbind_ok] at h
            have := Res.ok.inj h
            rw [← this]
            rfl
      · rw [if_neg h4] at h
        exact parse_single_tail_boundary h hb
  · rw [if_neg h2] at h
    exact parse_single_tail_boundary h hb

/-- Witness for C5 at a concrete state with boundary B and a plain field
line. -/
theorem C5_boundary_set_stays_witness :
    parse_single ⟨some "B".toList, false, false, []⟩ "X: y\r\n".toList =
      .ok (⟨some "B".toList, false, false, []⟩,
        some ⟨⟨"X".toList, "y".toList⟩, []⟩) ∧
    ((⟨some "B".toList, false, false, []⟩ : RequestState).boundary.isSome = true) ∧
    (((⟨some "B".toList, false, false, []⟩,
        some ⟨⟨"X".toList, "y".toList⟩, []⟩) :
        RequestState × Option RequestField).1.boundary.isSome = true) :=
  ⟨by decide, by decide,
   C5_boundary_set_stays ⟨some "B".toList, false, false, []⟩ "X: y\r\n".toList
     (⟨some "B".toList, false, false, []⟩, some ⟨⟨"X".toList, "y".toList⟩, []⟩)
     (by decide) (by decide)⟩

theorem findIdx?_none_aux {p : Char → Bool} {l : List Char}
    (h : ∀ c ∈ l, p c = false) : ∀ i, List.findIdx? p l i = none := by
  induction l with
  | nil => intro i; rfl
  | cons a as ih =>
    intro i
    rw [List.findIdx?_cons, if_neg (by simp [h a (List.mem_cons_self a as)])]
    exact ih (fun c hc => h c (List.mem_cons_of_mem a hc)) (i + 1)

theorem findIdx?_append_cons {p : Char → Bool} {l : List Char} {x : Char}
    {r : List Char} (hl : ∀ c ∈ l, p c = false) (hx : p x = true) :
    ∀ i, List.findIdx? p (l ++ x :: r) i = some (i + l.length) := by
  induction l with
  | nil =>
    intro i
    rw [List.nil_append, List.findIdx?_cons, if_pos hx]
    simp
  | cons a as ih =>
    intro i
    rw [List.cons_append, List.findIdx?_cons,
      if_neg (by simp [hl a (List.mem_cons_self a as)])]
    rw [ih (fun c hc => hl c (List.mem_cons_of_mem a hc)) (i + 1)]
    congr 1
    simp
    omega

theorem drop_append_cons (name : List Char) (x : Char) (rest : List Char) :
    (name ++ x :: rest).drop (name.length + 1) = rest := by
  rw [show name ++ x :: rest = (name ++ [x]) ++ rest by simp,
    show name.length + 1 = (name ++ [x]).length by simp, List.drop_left]

theorem parse_arg_quote_if (name rest : List Char) (hq : trim rest ≠ ['"']) :
    (if (trim rest).head? = some '"' ∧ (trim rest).getLast? = some '"' then
      (if 2 ≤ (trim rest).length then
        Res.ok (⟨name, ((trim rest).drop 1).dropLast⟩ : RequestFieldSimple)
       else .panicked)
     else .ok ⟨name, trim rest⟩) =
      (.ok ⟨name, dequote (trim rest)⟩ : Res RequestError RequestFieldSimple) := by
  by_cases hquote : (trim rest).head? = some '"' ∧ (trim rest).getLast? = some '"'
  · have hlen : 2 ≤ (trim rest).length := by
      cases htr : trim rest with
      | nil => rw [htr] at hquote; simp at hquote
      | cons a as =>
        cases as with
        | nil =>
          rw [htr] at hquote
          have ha : a = '"' := by simpa using hquote.1
          exact absurd (htr.trans (by rw [ha])) hq
        | cons b bs => simp
    rw [if_pos hquote, if_pos hlen]
    unfold dequote
    rw [if_pos ⟨hlen, hquote.1, hquote.2⟩]
  · rw [if_neg hquote]
    unfold dequote
    rw [if_neg (fun hcon => hquote ⟨hcon.2.1, hcon.2.2⟩)]

/-- C6 counterexample: the field line a equals followed by a lone double
quote splits at the equals sign, the value trims to the single quote
character, and the quote stripping slice body[1..0] is out of bounds: the
parser panics instead of producing the field the claim describes. -/
theorem C6_counter : parse_arg "a=\"".toList = .panicked := by decide

/-- C6 amended: splitting takes the first colon or, when no colon is
present, the first equals sign; the name is the text before it, the
value the trimmed text after it with one pair of outer double quotes
stripped when present on both ends, except that a value equal to the
single double quote character makes the quote stripping slice panic;
with neither delimiter parsing fails with a FieldError carrying the raw
text. -/
theorem C6_parse_arg :
    (∀ name rest : List Char, ':' ∉ name → trim rest ≠ ['"'] →
      parse_arg (name ++ ':' :: rest) = .ok ⟨name, dequote (trim rest)⟩) ∧
    (∀ name rest : List Char, ':' ∉ name → ':' ∉ rest → '=' ∉ name →
      trim rest ≠ ['"'] →
      parse_arg (name ++ '=' :: rest) = .ok ⟨name, dequote (trim rest)⟩) ∧
    (∀ text : List Char, ':' ∉ text → '=' ∉ text →
      parse_arg text = .err (.FieldError text)) := by
  refine ⟨?_, ?_, ?_⟩
  · intro name rest hname hq
    unfold parse_arg
    have hfi := findIdx?_append_cons (p := fun c => c = ':') (l := name)
      (x := ':') (r := rest)
      (fun c hc => decide_eq_false (fun he => hname (he ▸ hc))) (by decide) 0
    simp only [Nat.zero_add] at hfi
    rw [hfi]
    simp only [List.take_left, drop_append_cons]
    exact parse_arg_quote_if name rest hq
  · intro name rest hname hrest hname2 hq
    unfold parse_arg
    have hno : List.findIdx? (fun c => c = ':') (name ++ '=' :: rest) 0 = none := by
      apply findIdx?_none_aux
      intro c hc
      rcases List.mem_append.mp hc with hc | hc
      · exact decide_eq_false (fun he => hname (he ▸ hc))
      · rcases List.mem_cons.mp hc with hc | hc
        · subst hc; decide
        · exact decide_eq_false (fun he => hrest (he ▸ hc))
    have hfi := findIdx?_append_cons (p := fun c => c = '=') (l := name)
      (x := '=') (r := rest)
      (fun c hc => decide_eq_false (fun he => hname2 (he ▸ hc))) (by decide) 0
    simp only [Nat.zero_add] at hfi
    rw [hno, hfi]
    simp only [List.take_left, drop_append_cons]
    exact parse_arg_quote_if name rest hq
  · intro text h1 h2
    unfold parse_arg
    have hn1 : List.findIdx? (fun c => c = ':') text 0 = none :=
      findIdx?_none_aux (p := fun c => c = ':')
        (fun c hc => decide_eq_false (fun he => h1 (he ▸ hc))) 0
    have hn2 : List.findIdx? (fun c => c = '=') text 0 = none :=
      findIdx?_none_aux (p := fun c => c = '=')
        (fun c hc => decide_eq_false (fun he => h2 (he ▸ hc))) 0
    rw [hn1, hn2]

/-- Witness for C6 at concrete field lines. -/
theorem C6_parse_arg_witness :
    parse_arg "a: b ".toList = .ok ⟨"a".toList, "b".toList⟩ ∧
    parse_arg "n=\"v\"".toList = .ok ⟨"n".toList, "v".toList⟩ ∧
    parse_arg "plain".toList = .err (.FieldError "plain".toList) := by
  refine ⟨?_, ?_, ?_⟩
  · have := C6_parse_arg.1 "a".toList " b ".toList (by decide) (by decide)
    simpa using this
  · have := C6_parse_arg.2.1 "n".toList "\"v\"".toList (by decide) (by decide)
      (by decide) (by decide)
    simpa using this
  · have := C6_parse_arg.2.2 "plain".toList (by decide) (by decide)
    simpa using this

theorem mem_of_mem_trim {l : List Char} {c : Char} (h : c ∈ trim l) : c ∈ l := by
  unfold trim at h
  rw [List.mem_reverse] at h
  have h2 := (List.dropWhile_sublist isWsp).subset h
  rw [List.mem_reverse] at h2
  exact (List.dropWhile_sublist isWsp).subset h2

theorem mem_of_mem_stripCRLF {l : List Char} {c : Char}
    (h : c ∈ stripCRLF l) : c ∈ l := by
  unfold stripCRLF at h
  by_cases hc : 2 ≤ l.length ∧ l.drop (l.length - 2) = ['\r', '\n']
  · rw [if_pos hc] at h
    exact List.mem_of_mem_take h
  · rwa [if_neg hc] at h

theorem parse_arg_no_panic {text : List Char} (h : '"' ∉ text) :
    parse_arg text ≠ .panicked := by
  unfold parse_arg
  cases hIdx : (match text.findIdx? (fun c => c = ':') with
    | some i => some i
    | none => text.findIdx? (fun c => c = '=')) with
  | none => simp
  | some i =>
    simp only []
    by_cases hquote : (trim (text.drop (i + 1))).head? = some '"' ∧
        (trim (text.drop (i + 1))).getLast? = some '"'
    · exfalso
      apply h
      apply List.mem_of_mem_drop (n := i + 1)
      apply mem_of_mem_trim
      exact List.mem_of_mem_head? (by simp [hquote.1])
    · rw [if_neg hquote]
      simp

theorem parse_arg_name_subset {text : List Char} {simple : RequestFieldSimple}
    (h : parse_arg text = .ok simple) : ∀ c ∈ simple.name, c ∈ text := by
  unfold parse_arg at h
  cases hIdx : (match text.findIdx? (fun c => c = ':') with
    | some i => some i
    | none => text.findIdx? (fun c => c = '=')) with
  | none => rw [hIdx] at h; exact absurd h (by simp)
  | some i =>
    rw [hIdx] at h
    simp only [] at h
    intro c hc
    by_cases hquote : (trim (text.drop (i + 1))).head? = some '"' ∧
        (trim (text.drop (i + 1))).getLast? = some '"'
    · rw [if_pos hquote] at h
      by_cases hlen : 2 ≤ (trim (text.drop (i + 1))).length
      · rw [if_pos hlen] at h
        have := Res.ok.inj h
        rw [← this] at hc
        exact List.mem_of_mem_take hc
      · rw [if_neg hlen] at h; exact absurd h (by simp)
    · rw [if_neg hquote] at h
      have := Res.ok.inj h
      rw [← this] at hc
      exact List.mem_of_mem_take hc

theorem parse_arg_body_subset {text : List Char} {simple : RequestFieldSimple}
    (h : parse_arg text = .ok simple) : ∀ c ∈ simple.body, c ∈ text := by
  unfold parse_arg at h
  cases hIdx : (match text.findIdx? (fun c => c = ':') with
    | some i => some i
    | none => text.findIdx? (fun c => c = '=')) with
  | none => rw [hIdx] at h; exact absurd h (by simp)
  | some i =>
    rw [hIdx] at h
    simp only [] at h
    intro c hc
    by_cases hquote : (trim (text.drop (i + 1))).head? = some '"' ∧
        (trim (text.drop (i + 1))).getLast? = some '"'
    · rw [if_pos hquote] at h
      by_cases hlen : 2 ≤ (trim (text.drop (i + 1))).length
      · rw [if_pos hlen] at h
        have := Res.ok.inj h
        rw [← this] at hc
        have hc2 := List.mem_of_mem_dropLast hc
        have hc3 := List.mem_of_mem_drop hc2
        exact List.mem_of_mem_drop (mem_of_mem_trim hc3)
      · rw [if_neg hlen] at h; exact absurd h (by simp)
    · rw [if_neg hquote] at h
      have := Res.ok.inj h
      rw [← this] at hc
      exact List.mem_of_mem_drop (mem_of_mem_trim hc)

theorem argsM_no_panic {segs : List (List Char)}
    (h : ∀ s ∈ segs, '"' ∉ s) : argsM segs ≠ .panicked := by
  induction segs with
  | nil => simp [argsM]
  | cons x xs ih =>
    unfold argsM
    cases ha : parse_arg x with
    | panicked => exact absurd ha (parse_arg_no_panic (h x (List.mem_cons_self x xs)))
    | err e => rw [pbind_err]; simp
    | ok f =>
      rw [pbind_ok]
      cases hm : argsM xs with
      | panicked => exact absurd hm (ih (fun s hs => h s (List.mem_cons_of_mem x hs)))
      | err e => rw [pbind_err]; simp
      | ok fs => rw [pbind_ok]; simp

theorem parse_field_split_no_panic {name body0 : List Char} (h : '"' ∉ body0) :
    parse_field_split name body0 ≠ .panicked := by
  unfold parse_field_split
  by_cases hUA : name = "User-Agent".toList
  · rw [if_pos hUA]; simp
  · rw [if_neg hUA]
    cases hsp : (splitChar ';' body0).map trim with
    | nil =>
      exact absurd (List.map_eq_nil_iff.mp hsp) (splitChar_ne_nil ';' body0)
    | cons b rest =>
      cases hm : argsM rest with
      | panicked =>
        refine absurd hm (argsM_no_panic ?_)
        intro s hs hc
        have hs2 : s ∈ (splitChar ';' body0).map trim := by
          rw [hsp]; exact List.mem_cons_of_mem b hs
        obtain ⟨seg, hseg, rfl⟩ := List.mem_map.mp hs2
        exact h (mem_of_mem_splitChar hseg (mem_of_mem_trim hc))
      | err e => simp [pbind, hm]
      | ok cs => simp [pbind, hm]

theorem parse_normal_no_panic {st : RequestState} {line : List Char}
    (h : '"' ∉ line) : parse_normal st line ≠ .panicked := by
  unfold parse_normal
  cases ha : parse_arg line with
  | panicked => exact absurd ha (parse_arg_no_panic h)
  | err e => rw [pbind_err]; simp
  | ok simple =>
    rw [pbind_ok]
    cases hs : parse_field_split simple.name simple.body with
    | panicked =>
      exact absurd hs (parse_field_split_no_panic
        (fun hc => h (parse_arg_body_subset ha _ hc)))
    | err e => rw [pbind_err]; simp
    | ok bc =>
      rw [pbind_ok]
      by_cases hCT : simple.name = "Content-Type".toList ∧
          bc.1.take 9 = "multipart".toList
      · rw [if_pos hCT]
        cases bc.2.head? <;> simp
      · rw [if_neg hCT]; simp

theorem parse_normal_flags {st : RequestState} {line : List Char}
    {sf : RequestState × RequestField} (h : parse_normal st line = .ok sf) :
    sf.1.is_data_part = st.is_data_part := by
  unfold parse_normal at h
  cases ha : parse_arg line with
  | err e => rw [ha, pbind_err] at h; exact absurd h (by simp)
  | panicked => rw [ha, pbind_panicked] at h; exact absurd h (by simp)
  | ok simple =>
    rw [ha, pbind_ok] at h
    cases hs : parse_field_split simple.name simple.body with
    | err e => rw [hs, pbind_err] at h; exact absurd h (by simp)
    | panicked => rw [hs, pbind_panicked] at h; exact absurd h (by simp)
    | ok bc =>
      rw [hs, pbind_ok] at h
      by_cases hCT : simple.name = "Content-Type".toList ∧
          bc.1.take 9 = "multipart".toList
      · rw [if_pos hCT] at h
        cases hh : bc.2.head? with
        | none => rw [hh] at h; exact absurd h (by simp)
        | some inner =>
          rw [hh] at h
          rw [← Res.ok.inj h]
      · rw [if_neg hCT] at h
        rw [← Res.ok.inj h]

theorem parse_single_clean {st : RequestState} {line : List Char}
    (hdash : '-' ∉ line) (hquote : '"' ∉ line) (hd : st.is_data_part = false) :
    parse_single st line ≠ .panicked ∧
    ∀ q, parse_single st line = .ok q → q.1.is_data_part = false := by
  have h2 : ¬ line.take 2 = ['-', '-'] := fun he =>
    hdash (List.mem_of_mem_take (he ▸ List.mem_cons_self '-' ['-']))
  unfold parse_single parse_single_tail
  rw [if_neg h2, hd]
  rw [if_neg (by decide : ¬ (false = true))]
  by_cases he : stripCRLF line = []
  · rw [if_pos he]
    exact ⟨by simp, fun q hq => by rw [← Res.ok.inj hq]; exact hd⟩
  · rw [if_neg he]
    have hsub : ∀ c ∈ stripCRLF line, c ∈ line := fun c hc => mem_of_mem_stripCRLF hc
    cases hn : parse_normal st (stripCRLF line) with
    | panicked =>
      exact absurd hn (parse_normal_no_panic (fun hc => hquote (hsub _ hc)))
    | err e =>
      rw [pbind_err]
      exact ⟨by simp, fun q hq => absurd hq (by simp)⟩
    | ok sf =>
      rw [pbind_ok]
      refine ⟨by simp, fun q hq => ?_⟩
      rw [← Res.ok.inj hq]
      exact (parse_normal_flags hn).trans hd

theorem processLines_clean (ls : List (List Char))
    (h : ∀ l ∈ ls, '-' ∉ l ∧ '"' ∉ l) :
    ∀ st : RequestState, st.is_data_part = false →
      processLines st ls ≠ .panicked := by
  induction ls with
  | nil => intro st hd; simp [processLines]
  | cons l ls ih =>
    intro st hd
    obtain ⟨hdash, hqu⟩ := h l (List.mem_cons_self l ls)
    rw [processLines_cons]
    cases hps : parse_single st l with
    | panicked => exact absurd hps (parse_single_clean hdash hqu hd).1
    | err e => rw [pbind_err]; simp
    | ok so =>
      rw [pbind_ok]
      cases hr : processLines so.1 ls with
      | panicked =>
        exact absurd hr (ih (fun x hx => h x (List.mem_cons_of_mem l hx)) so.1
          ((parse_single_clean hdash hqu hd).2 so hps))
      | err e => rw [pbind_err]; simp
      | ok q => rw [pbind_ok]; simp

theorem parse_method_no_panic (t0 : List Char) : parse_method t0 ≠ .panicked := by
  unfold parse_method
  by_cases h1 : t0 = "GET".toList
  · rw [if_pos h1]; simp
  · rw [if_neg h1]
    by_cases h2 : t0 = "POST".toList
    · rw [if_pos h2]; simp
    · rw [if_neg h2]; simp

theorem parse_version_no_panic (v : List Char) : parse_version v ≠ .panicked := by
  unfold parse_version
  by_cases hbad : v.length ≠ 8 ∨ v.take 5 ≠ "HTTP/".toList
  · rw [if_pos hbad]; simp
  · rw [if_neg hbad]
    push_neg at hbad
    cases hh : (v.drop 5).head? with
    | none =>
      exfalso
      rw [List.head?_eq_none_iff, List.drop_eq_nil_iff] at hh
      omega
    | some mc =>
      simp only []
      cases hd1 : to_digit10 mc with
      | none => simp
      | some mj =>
        simp only []
        by_cases hmj : mj ≠ 1
        · rw [if_pos hmj]; simp
        · rw [if_neg hmj]
          cases hh2 : ((v.drop 5).drop 2).head? with
          | none =>
            exfalso
            rw [List.head?_eq_none_iff, List.drop_drop, List.drop_eq_nil_iff] at hh2
            omega
          | some nc =>
            simp only []
            cases to_digit10 nc <;> simp

theorem parse_fresh_no_panic (line : List Char) : parse_fresh line ≠ .panicked := by
  unfold parse_fresh
  cases hsp : splitChar ' ' (stripCRLF line) with
  | nil => simp
  | cons t0 rest =>
    simp only []
    unfold parse_tokens
    cases hm : parse_method t0 with
    | panicked => exact absurd hm (parse_method_no_panic t0)
    | err e => simp [pbind]
    | ok rt =>
      rw [pbind_ok]
      match rest with
      | [] => simp
      | [b] => simp
      | b :: v :: r2 =>
        simp only []
        cases hv : parse_version v with
        | panicked => exact absurd hv (parse_version_no_panic v)
        | err e => simp [pbind]
        | ok mv => simp [pbind]

/-- C9 counterexample: the decoder is not total: on a request whose
declared boundary is four bytes but whose boundary looking line is just
two dashes plus one byte, the slice line[..boundary.len()] indexes out of
bounds and PartialRequest::parse panics. -/
theorem C9_counter : parseChunk none defaultState c9s = .panicked := by decide

/-- C9 amended: the decoder is not total: the boundary line slices
line[..boundary.len()] and line_end[..2], the payload trim
last_data[len-2..] and the quote stripping slice body[1..len-1] can all
index out of bounds (see the counterexample); on any chunk containing no
dash and no double quote byte, with no carried request and a default
state, the decoder does return Ok or Err and never panics. -/
theorem C9_no_panic (s : List Char) (h1 : '-' ∉ s) (h2 : '"' ∉ s) :
    parseChunk none defaultState s ≠ .panicked := by
  cases hls : linesOf s with
  | nil => rw [parseChunk_none_nil hls]; simp
  | cons l0 rest =>
    rw [parseChunk_none_cons hls]
    cases hf : parse_fresh l0 with
    | panicked => exact absurd hf (parse_fresh_no_panic l0)
    | err e => simp [pbind]
    | ok hdr =>
      rw [pbind_ok]
      cases hq : processLines defaultState rest with
      | panicked =>
        refine absurd hq (processLines_clean rest ?_ defaultState rfl)
        intro l hl
        have hl2 : l ∈ linesOf s := by rw [hls]; exact List.mem_cons_of_mem l0 hl
        exact ⟨fun hc => h1 (mem_of_mem_linesOf hl2 hc),
          fun hc => h2 (mem_of_mem_linesOf hl2 hc)⟩
      | err e => simp [pbind]
      | ok q => simp [pbind]

/-- Witness for C9 on a dash free, quote free request. -/
theorem C9_no_panic_witness :
    ('-' ∉ "GET / HTTP/1.1\r\n".toList) ∧
    ('"' ∉ "GET / HTTP/1.1\r\n".toList) ∧
    parseChunk none defaultState "GET / HTTP/1.1\r\n".toList ≠ .panicked :=
  ⟨by decide, by decide,
   C9_no_panic "GET / HTTP/1.1\r\n".toList (by decide) (by decide)⟩

theorem trim_last_part_ok {l : List DataPart}
    (h : l = [] ∨ ∃ p, l.getLast? = some p ∧ 2 ≤ p.data.length) :
    trim_last_part l = .ok (trimData l) := by
  unfold trim_last_part trimData
  cases hl : l.getLast? with
  | none =>
    rw [List.getLast?_eq_none_iff] at hl
    subst hl
    rfl
  | some p =>
    rcases h with h | ⟨p2, hp2, hlen⟩
    · subst h; simp at hl
    · rw [hl] at hp2
      injection hp2 with hp2
      subst hp2
      simp only []
      rw [if_neg (by omega)]
      by_cases hcr : p.data.drop (p.data.length - 2) = ['\r', '\n']
      · rw [if_pos hcr, if_pos hcr]
      · rw [if_neg hcr, if_neg hcr]

/-- C10 counterexample: with boundary B set, the line of two dashes, the
boundary and a single following byte is not classified at all: the slice
line_end[..2] is out of bounds and the decoder panics, so the boundary
match is not independent of what bytes follow. -/
theorem C10_counter : parseChunk none defaultState c10s = .panicked := by decide

/-- Helper: once the boundary is set, a line of two dashes, the boundary
string and a rest of any length other than one is consumed as a boundary
line: nothing is emitted, it is closing exactly when the rest starts
with two dashes, the parts are trimmed and a new empty part is opened
exactly when the line is not closing. -/
theorem parse_single_boundary (st : RequestState) (b rest : List Char)
    (hb : st.boundary = some b)
    (hrest : rest.length ≠ 1)
    (htrim : st.data = [] ∨ ∃ p, st.data.getLast? = some p ∧ 2 ≤ p.data.length) :
    parse_single st (['-', '-'] ++ b ++ rest) =
      .ok (⟨st.boundary, !(decide (rest.take 2 = ['-', '-'])),
        (if rest.take 2 = ['-', '-'] then st.is_data_part_header else true),
        (if rest.take 2 = ['-', '-'] then trimData st.data
         else trimData st.data ++ [⟨[], []⟩])⟩, none) := by
  have hend : boundary_line_end rest = .ok (decide (rest.take 2 = ['-', '-'])) := by
    unfold boundary_line_end
    rcases rest with _ | ⟨a, _ | ⟨c, t⟩⟩
    · rfl
    · exact absurd rfl hrest
    · rw [if_neg (by simp), if_neg (by simp)]
  unfold parse_single
  rw [if_pos (show (['-', '-'] ++ b ++ rest).take 2 = ['-', '-'] from rfl), hb]
  simp only []
  rw [show (['-', '-'] ++ b ++ rest).drop 2 = b ++ rest from rfl]
  rw [if_neg (show ¬ (b ++ rest).length < b.length from by simp)]
  rw [if_pos (List.take_left b rest), List.drop_left]
  rw [hend, pbind_ok, trim_last_part_ok htrim, pbind_ok]
  simp

/-- C10 amended: once the boundary is set, a line of two dashes, the
boundary string and any following bytes, except exactly one following
byte which panics, is consumed as a boundary line: no field is emitted,
it is closing exactly when the two bytes after the boundary are two
dashes, the previous parts are only trimmed, never extended, and a new
empty part is opened exactly when the line is not closing; the trim
itself also requires the last open part, if any, to hold at least two
payload bytes, else the trim slice panics. -/
theorem C10_boundary_prefix (st : RequestState) (b rest : List Char)
    (hb : st.boundary = some b)
    (hrest : rest.length ≠ 1)
    (htrim : st.data = [] ∨ ∃ p, st.data.getLast? = some p ∧ 2 ≤ p.data.length) :
    parse_single st (['-', '-'] ++ b ++ rest) =
      .ok (⟨st.boundary, !(decide (rest.take 2 = ['-', '-'])),
        (if rest.take 2 = ['-', '-'] then st.is_data_part_header else true),
        (if rest.take 2 = ['-', '-'] then trimData st.data
         else trimData st.data ++ [⟨[], []⟩])⟩, none) :=
  parse_single_boundary st b rest hb hrest htrim

/-- Witness for C10 at a concrete open part state and a non closing
boundary line with trailing junk bytes. -/
theorem C10_boundary_prefix_witness :
    ((⟨some "B".toList, true, false, [⟨[], "xy\r\n".toList⟩]⟩ : RequestState).boundary =
      some "B".toList) ∧
    ("junk\r\n".toList.length ≠ 1) ∧
    parse_single ⟨some "B".toList, true, false, [⟨[], "xy\r\n".toList⟩]⟩
        (['-', '-'] ++ "B".toList ++ "junk\r\n".toList) =
      .ok (⟨some "B".toList, true, true, [⟨[], "xy".toList⟩, ⟨[], []⟩]⟩, none) := by
  refine ⟨rfl, by decide, ?_⟩
  have := C10_boundary_prefix ⟨some "B".toList, true, false, [⟨[], "xy\r\n".toList⟩]⟩
    "B".toList "junk\r\n".toList rfl (by decide)
    (Or.inr ⟨⟨[], "xy\r\n".toList⟩, by decide⟩)
  simpa using this

/-- Helper: whenever respond reports written output, that output is
either exactly the 404 response with alive cleared, or exactly one 200
response with alive passed through. -/
theorem respond_wrote_cases (fs : List Char → Option (List Char))
    (cwd : List Char) (alive : Bool) (c : List Char) (a : Bool)
    (outs : List (List Char))
    (h : respond fs cwd alive c = .wrote a outs) :
    (outs = [nf404] ∧ a = false) ∨
      (∃ ct bytes, outs = [response .Ok ct bytes] ∧ a = alive) := by
  unfold respond at h
  cases hrf : request_from_str c with
  | panicked => rw [hrf] at h; exact absurd h (by simp)
  | err e => rw [hrf] at h; exact absurd h (by simp)
  | ok req =>
    rw [hrf] at h
    simp only [] at h
    cases hreq : req.header.request with
    | Get =>
      rw [hreq] at h
      simp only [] at h
      unfold respond_get at h
      cases hfs : fs (if req.header.body = ['/'] then "index.html".toList
          else cwd ++ req.header.body) with
      | none =>
        rw [hfs] at h
        simp only [] at h
        injection h with h1 h2
        exact Or.inl ⟨h2.symm, h1.symm⟩
      | some bytes =>
        rw [hfs] at h
        simp only [] at h
        cases hext : extOf (if req.header.body = ['/'] then "index.html".toList
            else cwd ++ req.header.body) with
        | none => rw [hext] at h; exact absurd h (by simp)
        | some e =>
          rw [hext] at h
          simp only [] at h
          cases hct : ContentType.create e with
          | none => rw [hct] at h; exact absurd h (by simp)
          | some ct =>
            rw [hct] at h
            simp only [] at h
            injection h with h1 h2
            exact Or.inr ⟨ct, bytes, h2.symm, h1.symm⟩
    | Post =>
      rw [hreq] at h
      simp only [] at h
      unfold respond_post at h
      cases he : encodeParts (req.data.filter (fun d => ¬ d.data.isEmpty)) with
      | panicked => rw [he] at h; exact absurd h (by simp)
      | err e => rw [he] at h; exact absurd h (by simp)
      | ok l =>
        rw [he] at h
        simp only [] at h
        cases hfs : fs (cwd ++ req.header.body) with
        | none => rw [hfs] at h; exact absurd h (by simp)
        | some d2 =>
          rw [hfs] at h
          simp only [] at h
          injection h with h1 h2
          exact Or.inr ⟨.Html, d2, h2.symm, h1.symm⟩

/-- C2 counterexample: the driver keeps no carried pair. On the first
piece of a split multipart POST the decoder succeeds with is_partial
true, yet respond does not store anything and write nothing: it
dispatches the incomplete request at once (here the POST path dies with
a write error); and on the second piece respond decodes from scratch, so
the continuation bytes fail with an unknown request type error instead
of completing the carried request. -/
theorem C2_counter :
    (outOf (parseChunk none defaultState c2s1)).map (fun o => o.needsMore) =
      some true ∧
    respond (fun _ => none) [] true c2s1 = .deadErr .writingError ∧
    respond (fun _ => none) [] true c2s2 =
      .deadErr (.httpError (.UnknownRequestType "hi".toList)) :=
  ⟨by decide, by decide, by decide⟩

/-- C2 amended: the driver carries no pair across reads: every chunk is
decoded by itself with no carried request and a default ParseState, and
a successful respond call always writes exactly one response in the same
call, never zero, whatever the decoder's is_partial flag was; decode
errors terminate the connection. -/
theorem C2_respond_immediate (fs : List Char → Option (List Char))
    (cwd : List Char) (alive : Bool) (c : List Char) (a : Bool)
    (outs : List (List Char))
    (h : respond fs cwd alive c = .wrote a outs) : outs.length = 1 := by
  rcases respond_wrote_cases fs cwd alive c a outs h with
    ⟨ho, _⟩ | ⟨ct, bytes, ho, _⟩ <;> simp [ho]

/-- Witness for C2: a GET for a missing file writes exactly one
response. -/
theorem C2_respond_immediate_witness :
    respond (fun _ => none) [] true "GET / HTTP/1.1\r\n".toList =
      .wrote false [nf404] ∧
    ([nf404] : List (List Char)).length = 1 :=
  ⟨by decide,
   C2_respond_immediate (fun _ => none) [] true "GET / HTTP/1.1\r\n".toList
     false [nf404] (by decide)⟩

/-- Witness for C3 at concrete request lines. -/
theorem C3_request_line_witness :
    (parseChunk none defaultState
      (methodStr .Get ++ [' '] ++ "/x".toList ++ [' '] ++ "HTTP/1.".toList ++
        [Char.ofNat (48 + 7)] ++ ['\r', '\n']) =
      .ok (⟨false, ⟨⟨.Get, "/x".toList, 1, 7⟩, [], []⟩⟩, defaultState)) ∧
    (parseChunk none defaultState ("PUT".toList ++ [' '] ++ "/".toList ++ [' '] ++
        "HTTP/1.1".toList ++ ['\r', '\n']) =
      .err (.UnknownRequestType "PUT".toList)) ∧
    (parseChunk none defaultState ("GET".toList ++ [' '] ++ "/".toList ++ [' '] ++
        "HTTPS1.1".toList ++ ['\r', '\n']) =
      .err .MalformedVersion) ∧
    (parseChunk none defaultState
      ("GET".toList ++ [' '] ++ "/".toList ++ [' '] ++ "HTTP/".toList ++
        [Char.ofNat (48 + 2)] ++ ".1".toList ++ ['\r', '\n']) =
      .err .UnsupportedMajor) :=
  ⟨C3_request_line.1 .Get "/x".toList 7 (by decide) (by decide) (by decide),
   C3_request_line.2.1 "PUT".toList (by decide) (by decide) (by decide) (by decide),
   C3_request_line.2.2.1 "HTTPS1.1".toList (by decide) (by decide) (by decide),
   C3_request_line.2.2.2 2 (by decide) (by decide)⟩

theorem parse_normal_cd (st : RequestState) :
    parse_normal st cdLine = .ok (st, cdField) := by
  unfold parse_normal
  rw [show parse_arg cdLine = .ok ⟨"Content-Disposition".toList,
    "form-data; name=\"content\"".toList⟩ from by decide, pbind_ok]
  simp only []
  rw [show parse_field_split "Content-Disposition".toList
      "form-data; name=\"content\"".toList =
    .ok ("form-data".toList,
      [(⟨"name".toList, "content".toList⟩ : RequestFieldSimple)]) from by decide,
    pbind_ok]
  simp only []
  rw [if_neg (by decide)]
  rfl

theorem parse_single_cd (b : List Char) :
    parse_single ⟨some b, true, true, [⟨[], []⟩]⟩ cdLine =
      .ok (⟨some b, true, true, [⟨[cdField], []⟩]⟩, none) := by
  unfold parse_single
  rw [if_neg (by decide : ¬ cdLine.take 2 = ['-', '-'])]
  unfold parse_single_tail
  simp only []
  rw [if_pos (by trivial), if_pos (by trivial),
    if_neg (by decide : ¬ cdLine = ['\r', '\n'])]
  rw [parse_normal_cd, pbind_ok]
  rfl

theorem parse_single_blank (b : List Char) (flds : List RequestField) :
    parse_single ⟨some b, true, true, [⟨flds, []⟩]⟩ ['\r', '\n'] =
      .ok (⟨some b, true, false, [⟨flds, []⟩]⟩, none) := by
  unfold parse_single
  rw [if_neg (by decide : ¬ (['\r', '\n'] : List Char).take 2 = ['-', '-'])]
  unfold parse_single_tail
  simp only []
  rw [if_pos (by trivial), if_pos (by trivial), if_pos (by trivial)]

theorem payload_lines (b : List Char) (flds : List RequestField)
    (ls : List (List Char)) (h : ∀ l ∈ ls, l.take 2 ≠ ['-', '-']) :
    ∀ d : List Char,
      processLines ⟨some b, true, false, [⟨flds, d⟩]⟩ ls =
        .ok (⟨some b, true, false, [⟨flds, d ++ ls.flatten⟩]⟩, []) := by
  induction ls with
  | nil =>
    intro d
    rw [processLines_nil]
    simp
  | cons l ls ih =>
    intro d
    rw [processLines_cons]
    have hps : parse_single ⟨some b, true, false, [⟨flds, d⟩]⟩ l =
        .ok (⟨some b, true, false, [⟨flds, d ++ l⟩]⟩, none) := by
      unfold parse_single
      rw [if_neg (h l (List.mem_cons_self l ls))]
      unfold parse_single_tail
      simp only []
      rw [if_pos (by trivial), if_neg (by decide)]
      rfl
    rw [hps, pbind_ok]
    simp only []
    rw [ih (fun x hx => h x (List.mem_cons_of_mem l hx)) (d ++ l), pbind_ok]
    simp [List.append_assoc]

theorem trimData_crlf (flds : List RequestField) (d : List Char) :
    trimData [⟨flds, d ++ ['\r', '\n']⟩] = [⟨flds, d⟩] := by
  unfold trimData
  rw [show ([(⟨flds, d ++ ['\r', '\n']⟩ : DataPart)] : List DataPart).getLast? =
    some ⟨flds, d ++ ['\r', '\n']⟩ from rfl]
  simp only []
  have hlen : (d ++ ['\r', '\n']).length - 2 = d.length := by simp
  rw [hlen, List.drop_left, if_pos rfl, List.take_left]
  simp

theorem encode_data_text (fields : List RequestField) (payload : List Char)
    (f0 : RequestField) (nf : RequestFieldSimple)
    (hcd : fields.find? (fun f => f.this.name = "Content-Disposition".toList) =
      some f0)
    (hnf : f0.children.find? (fun f => f.name = "name".toList) = some nf)
    (hname : nf.body = "text_message".toList) :
    encode_data fields payload =
      .ok (cdLine ++ ['\r', '\n'] ++ payload ++ ['\r', '\n']) := by
  unfold encode_data
  rw [hcd]
  simp only []
  rw [hnf]
  simp only []
  rw [if_pos hname, pbind_ok]
  simp only []
  rfl

theorem decodeFramed_text (b payload : List Char) (hb : '\n' ∉ b)
    (hp : ∀ l ∈ linesOf (payload ++ ['\r', '\n']), l.take 2 ≠ ['-', '-']) :
    decodeFramed b (cdLine ++ ['\r', '\n'] ++ payload ++ ['\r', '\n']) =
      .ok (⟨some b, false, false, [⟨[cdField], payload⟩]⟩, []) := by
  have hnl1 : ('\n' : Char) ∉ ['-', '-'] ++ b ++ ['\r'] := by
    intro hm
    rcases List.mem_append.mp hm with hm1 | hm2
    · rcases List.mem_append.mp hm1 with hm3 | hm4
      · exact absurd hm3 (by decide)
      · exact hb hm4
    · exact absurd hm2 (by decide)
  have hnl5 : ('\n' : Char) ∉ ['-', '-'] ++ b ++ ['-', '-', '\r'] := by
    intro hm
    rcases List.mem_append.mp hm with hm1 | hm2
    · rcases List.mem_append.mp hm1 with hm3 | hm4
      · exact absurd hm3 (by decide)
      · exact hb hm4
    · exact absurd hm2 (by decide)
  have hA1 : linesOf (['-', '-'] ++ b ++ ['\r', '\n']) =
      [['-', '-'] ++ b ++ ['\r', '\n']] := by
    have h1 := linesOf_single hnl1
    rw [show (['-', '-'] ++ b ++ ['\r']) ++ ['\n'] =
      ['-', '-'] ++ b ++ ['\r', '\n'] from by simp] at h1
    exact h1
  have hA5 : linesOf (['-', '-'] ++ b ++ ['-', '-', '\r', '\n']) =
      [['-', '-'] ++ b ++ ['-', '-', '\r', '\n']] := by
    have h1 := linesOf_single hnl5
    rw [show (['-', '-'] ++ b ++ ['-', '-', '\r']) ++ ['\n'] =
      ['-', '-'] ++ b ++ ['-', '-', '\r', '\n'] from by simp] at h1
    exact h1
  have hg1 : (['-', '-'] ++ b ++ ['\r', '\n']).getLast? = some '\n' := by
    rw [show ['-', '-'] ++ b ++ ['\r', '\n'] =
      (['-', '-'] ++ b ++ ['\r']) ++ ['\n'] from by simp]
    exact List.getLast?_concat _
  have hpl : (payload ++ ['\r', '\n']).getLast? = some '\n' := by
    rw [show payload ++ ['\r', '\n'] = (payload ++ ['\r']) ++ ['\n'] from by simp]
    exact List.getLast?_concat _
  have step1 : parse_single ⟨some b, false, false, []⟩
      (['-', '-'] ++ b ++ ['\r', '\n']) =
      .ok (⟨some b, true, true, [⟨[], []⟩]⟩, none) :=
    (parse_single_boundary ⟨some b, false, false, []⟩ b ['\r', '\n'] rfl
      (by decide) (Or.inl rfl)).trans rfl
  have step5 : parse_single ⟨some b, true, false,
        [⟨[cdField], payload ++ ['\r', '\n']⟩]⟩
      (['-', '-'] ++ b ++ ['-', '-', '\r', '\n']) =
      .ok (⟨some b, false, false, [⟨[cdField], payload⟩]⟩, none) := by
    rw [parse_single_boundary ⟨some b, true, false,
        [⟨[cdField], payload ++ ['\r', '\n']⟩]⟩ b ['-', '-', '\r', '\n'] rfl
      (by decide) (Or.inr ⟨⟨[cdField], payload ++ ['\r', '\n']⟩, rfl, by simp⟩)]
    have hc : (['-', '-', '\r', '\n'] : List Char).take 2 = ['-', '-'] := rfl
    rw [if_pos hc, if_pos hc, trimData_crlf]
    rfl
  unfold decodeFramed
  rw [show ['-', '-'] ++ b ++ ['\r', '\n'] ++
      (cdLine ++ ['\r', '\n'] ++ payload ++ ['\r', '\n']) ++ ['-', '-'] ++ b ++
      "--\r\n".toList =
    (['-', '-'] ++ b ++ ['\r', '\n']) ++
      (cdLine ++ (['\r', '\n'] ++ ((payload ++ ['\r', '\n']) ++
        (['-', '-'] ++ b ++ ['-', '-', '\r', '\n'])))) from by
    rw [show "--\r\n".toList = ['-', '-', '\r', '\n'] from rfl]
    simp [List.append_assoc]]
  rw [linesOf_append hg1]
  rw [linesOf_append (show cdLine.getLast? = some '\n' from by decide)]
  rw [linesOf_append (show (['\r', '\n'] : List Char).getLast? = some '\n'
    from by decide)]
  rw [linesOf_append hpl]
  rw [hA1, hA5]
  rw [show linesOf cdLine = [cdLine] from by decide]
  rw [show linesOf ['\r', '\n'] = [['\r', '\n']] from by decide]
  rw [List.singleton_append, List.singleton_append, List.singleton_append]
  rw [processLines_cons, step1, pbind_ok]
  simp only []
  rw [processLines_cons, parse_single_cd b, pbind_ok]
  simp only []
  rw [processLines_cons, parse_single_blank b [cdField], pbind_ok]
  simp only []
  rw [processLines_append]
  rw [payload_lines b [cdField] (linesOf (payload ++ ['\r', '\n'])) hp []]
  rw [flatten_linesOf, pbind_ok]
  simp only [List.nil_append]
  rw [processLines_cons, step5, pbind_ok]
  simp only []
  rw [processLines_nil, pbind_ok]
  simp [pbind]

/-- C4 counterexample: the round trip is not the identity on the mini
header fields: encoding a text message part whose original
Content-Disposition carries name text_message and decoding the emitted
bytes yields a part whose only field is the rewritten Content-Disposition
with name content, which differs from the original field list. -/
theorem C4_counter :
    (roundTrip "B".toList c4fields "hi".toList).map (fun q => q.1.data) =
      some [⟨[cdField], "hi".toList⟩] ∧
    [cdField] ≠ c4fields :=
  ⟨by decide, by decide⟩

/-- C4 amended: for a text message part (a Content-Disposition field
whose name attribute is text_message), any payload whose lines never
start with two dashes, and any newline free boundary, encoding the part
and running the decoder's boundary, mini header and payload
classification over the framed bytes succeeds and reproduces the payload
byte for byte; the reproduced field list is the canonical rewritten
Content-Disposition with name content, not the original fields. -/
theorem C4_text_round_trip (b : List Char) (fields : List RequestField)
    (payload : List Char) (f0 : RequestField) (nf : RequestFieldSimple)
    (hcd : fields.find? (fun f => f.this.name = "Content-Disposition".toList) =
      some f0)
    (hnf : f0.children.find? (fun f => f.name = "name".toList) = some nf)
    (hname : nf.body = "text_message".toList)
    (hb : '\n' ∉ b)
    (hp : ∀ l ∈ linesOf (payload ++ ['\r', '\n']), l.take 2 ≠ ['-', '-']) :
    roundTrip b fields payload =
      some (⟨some b, false, false, [⟨[cdField], payload⟩]⟩, []) := by
  unfold roundTrip
  rw [encode_data_text fields payload f0 nf hcd hnf hname]
  simp only []
  rw [decodeFramed_text b payload hb hp]

/-- Witness for C4 at the concrete text message part, payload hi and
boundary B. -/
theorem C4_text_round_trip_witness :
    (c4fields.find? (fun f => f.this.name = "Content-Disposition".toList) =
      some ⟨⟨"Content-Disposition".toList, "form-data".toList⟩,
        [⟨"name".toList, "text_message".toList⟩]⟩) ∧
    (([(⟨"name".toList, "text_message".toList⟩ : RequestFieldSimple)]).find?
      (fun f => f.name = "name".toList) =
      some ⟨"name".toList, "text_message".toList⟩) ∧
    (("text_message".toList : List Char) = "text_message".toList) ∧
    ('\n' ∉ "B".toList) ∧
    (∀ l ∈ linesOf ("hi".toList ++ ['\r', '\n']), l.take 2 ≠ ['-', '-']) ∧
    roundTrip "B".toList c4fields "hi".toList =
      some (⟨some "B".toList, false, false, [⟨[cdField], "hi".toList⟩]⟩, []) :=
  ⟨by decide, by decide, rfl, by decide, by decide,
   C4_text_round_trip "B".toList c4fields "hi".toList
     ⟨⟨"Content-Disposition".toList, "form-data".toList⟩,
       [⟨"name".toList, "text_message".toList⟩]⟩
     ⟨"name".toList, "text_message".toList⟩
     (by decide) (by decide) rfl (by decide) (by decide)⟩

theorem clientLoop_nil (fs : List Char → Option (List Char)) (cwd : List Char)
    (alive : Bool) : clientLoop fs cwd alive [] = [] := rfl

theorem clientLoop_cons (fs : List Char → Option (List Char)) (cwd : List Char)
    (alive : Bool) (c : List Char) (cs : List (List Char)) :
    clientLoop fs cwd alive (c :: cs) =
      match respond fs cwd alive c with
      | .wrote a outs => outs ++ (if a then clientLoop fs cwd a cs else [])
      | .deadErr _ => []
      | .deadPanic => [] := rfl

theorem response_ok_take (ct : ContentType) (bytes : List Char) :
    (response .Ok ct bytes).take 10 = "HTTP/1.1 2".toList := by
  unfold response response_header
  rw [show Status.Ok.as_bytes = "HTTP/1.1 2".toList ++ "00 OK".toList
    from by decide]
  simp only [List.cons_append, List.nil_append, List.map_cons,
    List.flatten_cons, List.append_assoc]
  rw [List.take_left' (by decide)]

theorem response_ok_ne_nf404 (ct : ContentType) (bytes : List Char) :
    response .Ok ct bytes ≠ nf404 := by
  intro h
  have h10 := congrArg (List.take 10) h
  rw [response_ok_take] at h10
  rw [show nf404.take 10 = "HTTP/1.1 4".toList from by decide] at h10
  exact absurd h10 (by decide)

theorem clientLoop_404_last (fs : List Char → Option (List Char))
    (cwd : List Char) :
    ∀ (chunks : List (List Char)) (alive : Bool) (l1 l2 : List (List Char)),
      clientLoop fs cwd alive chunks = l1 ++ nf404 :: l2 → l2 = [] := by
  intro chunks
  induction chunks with
  | nil =>
    intro alive l1 l2 h
    rw [clientLoop_nil] at h
    simp at h
  | cons c cs ih =>
    intro alive l1 l2 h
    rw [clientLoop_cons] at h
    cases hr : respond fs cwd alive c with
    | deadErr e =>
      rw [hr] at h
      simp only [] at h
      simp at h
    | deadPanic =>
      rw [hr] at h
      simp only [] at h
      simp at h
    | wrote a outs =>
      rw [hr] at h
      simp only [] at h
      rcases respond_wrote_cases fs cwd alive c a outs hr with
        ⟨ho, ha⟩ | ⟨ct, bytes, ho, ha⟩
      · subst ho
        subst ha
        have hlen := congrArg List.length h
        simp at hlen
        exact List.eq_nil_of_length_eq_zero (by omega)
      · subst ho
        cases a with
        | false =>
          have hlen := congrArg List.length h
          simp at hlen
          exact List.eq_nil_of_length_eq_zero (by omega)
        | true =>
          rw [if_pos rfl, List.singleton_append] at h
          cases l1 with
          | nil =>
            rw [List.nil_append] at h
            injection h with h1 h2
            exact absurd h1 (response_ok_ne_nf404 ct bytes)
          | cons x l1 =>
            rw [List.cons_append] at h
            injection h with h1 h2
            exact ih true l1 l2 h2

/-- C8: one 404 ends the session: whenever respond reports written
output containing the canned 404 response, the new alive flag is false;
and in the full output of the driver loop nothing ever follows a 404
response, so a connection never sends a second response after one. -/
theorem C8_one404_ends :
    (∀ (fs : List Char → Option (List Char)) (cwd : List Char) (alive : Bool)
        (c : List Char) (a : Bool) (outs : List (List Char)),
        respond fs cwd alive c = .wrote a outs → nf404 ∈ outs → a = false) ∧
    (∀ (fs : List Char → Option (List Char)) (cwd : List Char)
        (chunks : List (List Char)) (alive : Bool) (l1 l2 : List (List Char)),
        clientLoop fs cwd alive chunks = l1 ++ nf404 :: l2 → l2 = []) := by
  constructor
  · intro fs cwd alive c a outs h hmem
    rcases respond_wrote_cases fs cwd alive c a outs h with
      ⟨ho, ha⟩ | ⟨ct, bytes, ho, ha⟩
    · exact ha
    · subst ho
      exact absurd (List.mem_singleton.mp hmem).symm (response_ok_ne_nf404 ct bytes)
  · intro fs cwd chunks alive l1 l2 h
    exact clientLoop_404_last fs cwd chunks alive l1 l2 h

/-- Witness for C8: a GET for a missing file produces the 404 with alive
false, and the loop output on that connection is the 404 with nothing
after it. -/
theorem C8_one404_ends_witness :
    (respond (fun _ => none) [] true "GET / HTTP/1.1\r\n".toList =
      .wrote false [nf404]) ∧
    (nf404 ∈ [nf404]) ∧
    (false = false) ∧
    (clientLoop (fun _ => none) [] true ["GET / HTTP/1.1\r\n".toList] =
      [] ++ nf404 :: []) ∧
    (([] : List (List Char)) = []) :=
  ⟨by decide, List.mem_singleton.mpr rfl,
   C8_one404_ends.1 (fun _ => none) [] true "GET / HTTP/1.1\r\n".toList false
     [nf404] (by decide) (List.mem_singleton.mpr rfl),
   by decide,
   C8_one404_ends.2 (fun _ => none) [] ["GET / HTTP/1.1\r\n".toList] true [] []
     (by decide)⟩

end Srv
